import Mathlib

/-!
Verification of the job admission, serialization, and recovery subsystem of
the `next_generate_app` backend (`backend/main.py`, `backend/worker.py`,
`backend/database.py`, `backend/engine.py`).

Task records are Python dicts; we embed them as association lists of
(field name, value).  Times are modelled as natural numbers (seconds);
`datetime.now().isoformat()` stores the current time and
`datetime.fromisoformat` reads it back, so a timestamp value stands for
both.  `cfg_scale` is a Python float that is only stored and compared,
never computed with; every value it takes in this code base is a
multiple of 0.1, so it is embedded in fixed point as a natural number
of tenths (`7.5` ↦ `75`).
-/

namespace NextGen

/-- A value stored in a task-record dict: a string, a timestamp/number,
or Python `None`. -/
inductive Val where
  | vs (v : String)
  | vn (v : Nat)
  | vnone
deriving DecidableEq

/-- A field name of a task-record dict. -/
abbrev Field := String

/-- A task id (`str(uuid.uuid4())` in `main.py`). -/
abbrev TaskId := String

/-- A task record: a Python dict, embedded as an assoc list
(insertion ordered, keys unique in all records the program builds). -/
abbrev Rec := List (Field × Val)

/-- Dict key lookup (first occurrence; Python dicts have unique keys). -/
def recLookup : Rec → Field → Option Val
  | [], _ => none
  | (k', v') :: rest, k => if k' = k then some v' else recLookup rest k

/-- Python `d[k] = v`: replace the value at an existing key in place
(a dict keeps the key's original position), else append the new key. -/
def dictSet : Rec → Field → Val → Rec
  | [], k, v => [(k, v)]
  | (k', v') :: rest, k, v =>
      if k' = k then (k, v) :: rest else (k', v') :: dictSet rest k v

/-- Python `task.update(updates)`: set every key of `updates` in order. -/
def dictUpdate (r : Rec) (u : Rec) : Rec :=
  u.foldl (fun acc kv => dictSet acc kv.1 kv.2) r

/-- The value the merge assigns to key `k`: the LAST write for `k` in the
update list wins (later entries take priority). -/
def lastVal : Rec → Field → Option Val
  | [], _ => none
  | (k', v') :: rest, k =>
      match lastVal rest k with
      | some v => some v
      | none => if k = k' then some v' else none

/-- `task["id"]` as stored. -/
def recId (r : Rec) : Option Val := recLookup r "id"

/-- The id string of a record (records built by `create_task` always
store the id as a string). -/
def idOf (r : Rec) : TaskId :=
  match recId r with
  | some (.vs s) => s
  | _ => ""

/-! ## `backend/database.py` — the persistence store

The store is the JSON list in `tasks.json`, newest record first. -/

/-- The persisted store (`Database._read_data()` result). -/
abbrev DB := List Rec

/-- `Database.add_task`: `data.insert(0, task)` — newest first. -/
def add_task (db : DB) (task : Rec) : DB := task :: db

/-- `Database.update_task`: merge `updates` into the FIRST record whose
`id` equals `task_id` (the loop `break`s after the first match); if no
record matches, the store is written back unchanged. -/
def update_task (db : DB) (task_id : TaskId) (updates : Rec) : DB :=
  match db with
  | [] => []
  | task :: rest =>
      if recId task = some (.vs task_id) then dictUpdate task updates :: rest
      else task :: update_task rest task_id updates

/-- `Database.get_tasks`: the whole store, newest first. -/
def get_tasks (db : DB) : List Rec := db

/-- `Database.get_task`: first record with the given id, else `None`. -/
def get_task (db : DB) (task_id : TaskId) : Option Rec :=
  db.find? (fun task => recId task = some (.vs task_id))

/-! ### Dict / store lemmas -/

theorem recLookup_dictSet_self (r : Rec) (k : Field) (v : Val) :
    recLookup (dictSet r k v) k = some v := by
  induction r with
  | nil => simp [dictSet, recLookup]
  | cons kv rest ih =>
      by_cases h : kv.1 = k <;> simp [dictSet, recLookup, h, ih]

theorem recLookup_dictSet_ne (r : Rec) (k k' : Field) (v : Val) (h : k' ≠ k) :
    recLookup (dictSet r k v) k' = recLookup r k' := by
  have h' : k ≠ k' := h.symm
  induction r with
  | nil => simp [dictSet, recLookup, h']
  | cons kv rest ih =>
      by_cases hk : kv.1 = k
      · simp [dictSet, recLookup, hk, h']
      · simp only [dictSet, if_neg hk, recLookup]
        by_cases hk' : kv.1 = k' <;> simp [hk', ih]

/-- Key-level behaviour of the merge: a key written by the update list
ends at its last written value; an unwritten key keeps its old value. -/
theorem recLookup_dictUpdate (r u : Rec) (k : Field) :
    recLookup (dictUpdate r u) k =
      match lastVal u k with
      | some v => some v
      | none => recLookup r k := by
  induction u generalizing r with
  | nil => simp [dictUpdate, lastVal]
  | cons kv rest ih =>
      show recLookup (dictUpdate (dictSet r kv.1 kv.2) rest) k = _
      rw [ih]
      rcases hrest : lastVal rest k with _ | v
      · simp only [lastVal, hrest]
        by_cases hk : k = kv.1
        · subst hk; simp [recLookup_dictSet_self]
        · simp [recLookup_dictSet_ne _ _ _ _ hk, hk]
      · simp [lastVal, hrest]

theorem recLookup_dictUpdate_of_last (r u : Rec) (k : Field) (v : Val)
    (h : lastVal u k = some v) :
    recLookup (dictUpdate r u) k = some v := by
  rw [recLookup_dictUpdate, h]

theorem recLookup_dictUpdate_of_not_written (r u : Rec) (k : Field)
    (h : lastVal u k = none) :
    recLookup (dictUpdate r u) k = recLookup r k := by
  rw [recLookup_dictUpdate, h]

/-- Merging an update list that never writes `"id"` keeps the id. -/
theorem recId_dictUpdate (r u : Rec) (h : lastVal u "id" = none) :
    recId (dictUpdate r u) = recId r :=
  recLookup_dictUpdate_of_not_written r u "id" h

/-- `update_task` on a store whose prefix has no matching id rewrites
exactly the first matching record and leaves everything else unchanged. -/
theorem update_task_first_match (pre post : DB) (r : Rec) (u : Rec)
    (tid : TaskId) (hr : recId r = some (.vs tid))
    (hpre : ∀ x ∈ pre, recId x ≠ some (.vs tid)) :
    update_task (pre ++ r :: post) tid u = pre ++ dictUpdate r u :: post := by
  induction pre with
  | nil => simp [update_task, hr]
  | cons x rest ih =>
      have hx : recId x ≠ some (.vs tid) := hpre x (by simp)
      simp only [List.cons_append, update_task, if_neg hx]
      have := ih (fun y hy => hpre y (by simp [hy]))
      simp only [List.append_eq] at this ⊢
      rw [this]

/-- Updating an id that is absent from the store is a silent no-op. -/
theorem update_task_absent (db : DB) (tid : TaskId) (u : Rec)
    (h : ∀ x ∈ db, recId x ≠ some (.vs tid)) :
    update_task db tid u = db := by
  induction db with
  | nil => rfl
  | cons x rest ih =>
      have hx : recId x ≠ some (.vs tid) := h x (by simp)
      simp only [update_task, if_neg hx]
      rw [ih (fun y hy => h y (by simp [hy]))]

/-! ## `backend/main.py` — request model and the submission path -/

/-- `GenerateRequest` (pydantic model in `main.py`) with its declared
defaults.  `request.dict()` always carries every field, so the queue
item's request snapshot is this structure. -/
structure GenerateRequest where
  prompt : String
  negative_prompt : Option String := none
  steps : Nat := 20
  width : Nat := 512
  height : Nat := 512
  cfg_scale : Nat := 75  -- tenths: the float default 7.5
deriving DecidableEq

/-- The item placed on the worker queue:
`{"task_id": task_id, "request": request_data}`. -/
structure QueueItem where
  task_id : TaskId
  request : GenerateRequest
deriving DecidableEq

/-- The record dict built and persisted by `create_task` in `main.py`.
Note: it stores `id`, `prompt`, `negative_prompt`, `status`,
`created_at`, `imageUrl` — and does NOT store `steps`, `width`,
`height` or `cfg_scale`. -/
def create_task_record (task_id : TaskId) (now : Nat)
    (request : GenerateRequest) : Rec :=
  [ ("id", .vs task_id)
  , ("prompt", .vs request.prompt)
  , ("negative_prompt",
      match request.negative_prompt with
      | some s => .vs s
      | none => Val.vnone)
  , ("status", .vs "submitted")
  , ("created_at", .vn now)
  , ("imageUrl", Val.vnone) ]

/-! ## `backend/worker.py` — recovery scanner
(`TaskWorker.resume_pending_tasks`) -/

/-- `task["status"]`. -/
def statusOf (r : Rec) : Option Val := recLookup r "status"

/-- `task["status"] in ["submitted", "processing"]`. -/
def isPending (r : Rec) : Bool :=
  statusOf r = some (.vs "submitted") || statusOf r = some (.vs "processing")

/-- `task.get("created_at")` followed by `datetime.fromisoformat`:
yields a time only when the field holds a (truthy, parsable)
timestamp; otherwise the `except (ValueError, TypeError): pass`
branch skips the staleness reset. -/
def createdAt (r : Rec) : Option Nat :=
  match recLookup r "created_at" with
  | some (.vn t) => some t
  | _ => none

/-- Staleness threshold: `timedelta(minutes=10)`, in seconds. -/
def stale_threshold : Nat := 600

/-- The stuck-task test of `resume_pending_tasks`: status is
`processing` and `created_at < datetime.now() - timedelta(minutes=10)`. -/
def isStaleProcessing (now : Nat) (r : Rec) : Bool :=
  statusOf r = some (.vs "processing") &&
    match createdAt r with
    | some t => decide ((t : Int) < (now : Int) - (stale_threshold : Int))
    | none => false

/-- The request dict rebuilt by `resume_pending_tasks` for a resumed
task: prompt and negative_prompt come from the stored record, but the
generation parameters are the hard-coded defaults
`{"steps": 20, "width": 512, "height": 512, "cfg_scale": 7.5}`
(the record does not store them — see the FIX comment in the source). -/
def recovered_request (task : Rec) : GenerateRequest :=
  { prompt :=
      match recLookup task "prompt" with
      | some (.vs p) => p
      | _ => ""  -- `task["prompt"]`; records built by create_task always carry it
  , negative_prompt :=
      match recLookup task "negative_prompt" with
      | some (.vs s) => some s
      | _ => none
  , steps := 20, width := 512, height := 512, cfg_scale := 75 }

/-- Result of the recovery scan: the store after the stuck-task resets,
the queue items enqueued (in order), and the two observability counters. -/
structure ResumeResult where
  db : DB
  queued : List QueueItem
  count : Nat
  stuck_count : Nat
deriving DecidableEq

/-- One iteration of the `for task in reversed(tasks)` loop: reset a
stuck `processing` record to `submitted` in the store, then (testing the
in-memory snapshot dict, which the store write does not change) enqueue
every `submitted`/`processing` task. -/
def resumeStep (now : Nat) (acc : ResumeResult) (task : Rec) : ResumeResult :=
  let acc1 :=
    if isStaleProcessing now task then
      { acc with
          db := update_task acc.db (idOf task) [("status", .vs "submitted")]
          stuck_count := acc.stuck_count + 1 }
    else acc
  if isPending task then
    { acc1 with
        queued := acc1.queued ++ [⟨idOf task, recovered_request task⟩]
        count := acc1.count + 1 }
  else acc1

/-- `TaskWorker.resume_pending_tasks`: scan the persisted store (stored
newest first, iterated in reverse so oldest first), resetting stuck
`processing` records and re-enqueueing all unfinished work. -/
def resume_pending_tasks (now : Nat) (db0 : DB) : ResumeResult :=
  (get_tasks db0).reverse.foldl (resumeStep now) ⟨db0, [], 0, 0⟩

/-! ## `backend/worker.py` — supervisor loop retry/backoff
(`TaskWorker._worker_loop`) -/

/-- Classification of one iteration of the main worker loop:
* `taskCycle` — a task was dequeued and `process_task` ran to its
  `finally` block (whether or not the task itself failed);
* `queueTimeout` — the 1-second `asyncio.wait_for(self.queue.get(), ...)`
  timed out (`continue`, not an error);
* `loopErr` — an exception escaped to the outer `except` of the loop. -/
inductive LoopEvent where
  | taskCycle
  | queueTimeout
  | loopErr
deriving DecidableEq

/-- `max_retries = 5` in `_worker_loop`. -/
def max_retries : Nat := 5

/-- The loop state: the `retry_count` local, the `is_running` flag, and
the log of backoff sleeps performed (in seconds). -/
structure LoopState where
  retry_count : Nat
  is_running : Bool
  sleeps : List Nat
deriving DecidableEq

/-- One iteration of `_worker_loop`'s `while self.is_running` body:
a completed task cycle resets `retry_count` (the `finally` block); a
loop-level exception increments it, stops the worker once it reaches
`max_retries`, and otherwise sleeps `min(2 ** retry_count, 60)`. -/
def worker_loop_step (s : LoopState) (e : LoopEvent) : LoopState :=
  if s.is_running = false then s
  else
    match e with
    | .taskCycle => { s with retry_count := 0 }
    | .queueTimeout => s
    | .loopErr =>
        let rc := s.retry_count + 1
        if max_retries ≤ rc then
          { s with retry_count := rc, is_running := false }
        else
          { s with retry_count := rc, sleeps := s.sleeps ++ [min (2 ^ rc) 60] }

/-- Run the loop body over a sequence of iteration outcomes, starting
from the state `_worker_loop` initialises (`retry_count = 0`). -/
def loopRun (events : List LoopEvent) : LoopState :=
  events.foldl worker_loop_step ⟨0, true, []⟩

/-! ### Recovery-scan lemmas -/

theorem idOf_eq_of_recId_eq {r r' : Rec} (h : recId r = recId r') :
    idOf r = idOf r' := by
  unfold idOf; rw [h]

theorem recId_dictSet_status (r : Rec) (v : Val) :
    recId (dictSet r "status" v) = recId r :=
  recLookup_dictSet_ne r "status" "id" v (by decide)

/-- On a store with well-formed, duplicate-free ids, `update_task`
is the pointwise map that merges into the (unique) matching record. -/
theorem update_task_eq_map (db : DB) (tid : TaskId) (u : Rec)
    (hid : ∀ r ∈ db, recId r = some (.vs (idOf r)))
    (hnd : (db.map idOf).Nodup) :
    update_task db tid u =
      db.map (fun r => if idOf r = tid then dictUpdate r u else r) := by
  induction db with
  | nil => rfl
  | cons x rest ih =>
      have hx : recId x = some (.vs (idOf x)) := hid x (by simp)
      have hnd' : idOf x ∉ rest.map idOf ∧ (rest.map idOf).Nodup := by
        simpa using hnd
      by_cases hxt : idOf x = tid
      · have hmatch : recId x = some (.vs tid) := by rw [hx, hxt]
        simp only [update_task, if_pos hmatch, List.map, if_pos hxt]
        have hrest : ∀ r ∈ rest, idOf r ≠ tid := by
          intro r hr heq
          exact hnd'.1 (by rw [hxt, ← heq]; exact List.mem_map_of_mem idOf hr)
        have hmap : rest.map (fun r => if idOf r = tid then dictUpdate r u else r)
            = rest.map id := by
          apply List.map_congr_left
          intro r hr
          simp [hrest r hr]
        rw [hmap, List.map_id]
      · have hne : recId x ≠ some (.vs tid) := by
          rw [hx]; intro hcon
          exact hxt (by injection hcon with h1; injection h1)
        simp only [update_task, if_neg hne, List.map, if_neg hxt]
        rw [ih (fun r hr => hid r (by simp [hr])) hnd'.2]

/-- The record map the recovery scan applies to the store: stuck
`processing` records are reset to `submitted`, all others untouched. -/
def resetStale (now : Nat) (r : Rec) : Rec :=
  if isStaleProcessing now r then dictSet r "status" (.vs "submitted") else r

/-- The queue item the recovery scan builds for a record. -/
def resumeItem (r : Rec) : QueueItem := ⟨idOf r, recovered_request r⟩

/-- Generalised unrolling of the `for task in reversed(tasks)` loop of
`resume_pending_tasks`: starting from a store that is `db0` with some
id-preserving rewrite `g` already applied, and a to-do list of distinct
not-yet-rewritten records of `db0`, the loop resets exactly the stale
`processing` to-do records and appends exactly one queue item per
pending to-do record, in to-do order. -/
theorem resume_foldl (now : Nat) (db0 : DB)
    (hid : ∀ r ∈ db0, recId r = some (.vs (idOf r)))
    (hnd : (db0.map idOf).Nodup) :
    ∀ (todo : List Rec) (g : Rec → Rec) (q : List QueueItem) (c sc : Nat),
    (∀ x ∈ db0, recId (g x) = recId x) →
    (∀ x ∈ todo, g x = x) →
    (∀ x ∈ todo, x ∈ db0) →
    (todo.map idOf).Nodup →
    List.foldl (resumeStep now) ⟨db0.map g, q, c, sc⟩ todo =
      ⟨ db0.map (fun x =>
          if x ∈ todo ∧ isStaleProcessing now x
          then dictSet x "status" (.vs "submitted") else g x)
      , q ++ (todo.filter (fun r => isPending r)).map resumeItem
      , c + (todo.filter (fun r => isPending r)).length
      , sc + (todo.filter (fun r => isStaleProcessing now r)).length ⟩ := by
  intro todo
  induction todo with
  | nil =>
      intro g q c sc hg _ _ _
      simp only [List.foldl_nil, List.filter_nil, List.map_nil,
        List.append_nil, List.length_nil, Nat.add_zero]
      have hmap : db0.map (fun x =>
          if x ∈ ([] : List Rec) ∧ isStaleProcessing now x
          then dictSet x "status" (.vs "submitted") else g x) = db0.map g := by
        apply List.map_congr_left; intro x _; simp
      rw [hmap]
  | cons r rest ih =>
      intro g q c sc hg hgtodo hmem hndtodo
      have hr0 : r ∈ db0 := hmem r (by simp)
      have hndtodo' : idOf r ∉ rest.map idOf ∧ (rest.map idOf).Nodup := by
        simpa using hndtodo
      have hrid : r ∉ rest := fun hcon =>
        hndtodo'.1 (List.mem_map_of_mem idOf hcon)
      have hinj : ∀ x ∈ db0, x ≠ r → idOf x ≠ idOf r := by
        intro x hxdb hxr heq
        exact hxr (List.inj_on_of_nodup_map hnd hxdb hr0 heq)
      have hmem' : ∀ x ∈ rest, x ∈ db0 := fun x hx => hmem x (by simp [hx])
      cases hstale : isStaleProcessing now r with
      | true =>
        -- stuck task: the store write resets record `r`
        have hgr : g r = r := hgtodo r (by simp)
        have hupd : update_task (db0.map g) (idOf r) [("status", .vs "submitted")]
            = db0.map (fun x =>
                if x = r then dictSet x "status" (.vs "submitted") else g x) := by
          rw [update_task_eq_map]
          · rw [List.map_map]
            apply List.map_congr_left
            intro x hx
            have hidg : idOf (g x) = idOf x := idOf_eq_of_recId_eq (hg x hx)
            by_cases hxr : x = r
            · subst hxr
              simp [Function.comp_apply, hidg, hgr, dictUpdate]
            · simp only [Function.comp_apply, hidg,
                if_neg (hinj x hx hxr), if_neg hxr]
          · intro y hy
            obtain ⟨x, hx, rfl⟩ := List.mem_map.mp hy
            rw [hg x hx, idOf_eq_of_recId_eq (hg x hx)]
            exact hid x hx
          · rw [List.map_map]
            have hcomp : db0.map (idOf ∘ g) = db0.map idOf :=
              List.map_congr_left (fun x hx => idOf_eq_of_recId_eq (hg x hx))
            rw [hcomp]; exact hnd
        have hg1 : ∀ x ∈ db0,
            recId (if x = r then dictSet x "status" (.vs "submitted") else g x)
              = recId x := by
          intro x hx
          by_cases hxr : x = r
          · simp [hxr, recId_dictSet_status]
          · simp [hxr, hg x hx]
        have hg1todo : ∀ x ∈ rest,
            (if x = r then dictSet x "status" (.vs "submitted") else g x) = x := by
          intro x hx
          have hxr : x ≠ r := fun hcon => hrid (hcon ▸ hx)
          simp [hxr, hgtodo x (by simp [hx])]
        have hmapT : db0.map (fun x =>
              if x ∈ rest ∧ isStaleProcessing now x
              then dictSet x "status" (.vs "submitted")
              else if x = r then dictSet x "status" (.vs "submitted") else g x)
            = db0.map (fun x =>
              if x ∈ r :: rest ∧ isStaleProcessing now x
              then dictSet x "status" (.vs "submitted") else g x) := by
          apply List.map_congr_left
          intro x _
          by_cases hxr : x = r
          · subst hxr
            simp [hrid, hstale]
          · have hmc : (x ∈ r :: rest) = (x ∈ rest) := by
              simp [List.mem_cons, hxr]
            simp only [hmc, if_neg hxr]
        cases hp : isPending r with
        | true =>
          have hstep : resumeStep now ⟨db0.map g, q, c, sc⟩ r =
              ⟨update_task (db0.map g) (idOf r) [("status", .vs "submitted")],
               q ++ [resumeItem r], c + 1, sc + 1⟩ := by
            simp [resumeStep, hstale, hp, resumeItem]
          rw [List.foldl_cons, hstep, hupd,
            ih _ (q ++ [resumeItem r]) (c + 1) (sc + 1) hg1 hg1todo hmem' hndtodo'.2]
          simp only [List.filter_cons, hstale, hp, ite_true,
            List.map_cons, List.length_cons, ResumeResult.mk.injEq]
          refine ⟨?_, ?_, ?_, ?_⟩
          · exact hmapT
          · simp
          · omega
          · omega
        | false =>
          have hstep : resumeStep now ⟨db0.map g, q, c, sc⟩ r =
              ⟨update_task (db0.map g) (idOf r) [("status", .vs "submitted")],
               q, c, sc + 1⟩ := by
            simp [resumeStep, hstale, hp]
          rw [List.foldl_cons, hstep, hupd,
            ih _ q c (sc + 1) hg1 hg1todo hmem' hndtodo'.2]
          simp only [List.filter_cons, hstale, hp, ite_true, ite_false,
            List.length_cons, ResumeResult.mk.injEq]
          refine ⟨?_, ?_, ?_, ?_⟩
          · exact hmapT
          · rfl
          · rfl
          · omega
      | false =>
        -- not stale: the store is untouched this iteration
        have hmapF : db0.map (fun x =>
              if x ∈ rest ∧ isStaleProcessing now x
              then dictSet x "status" (.vs "submitted") else g x)
            = db0.map (fun x =>
              if x ∈ r :: rest ∧ isStaleProcessing now x
              then dictSet x "status" (.vs "submitted") else g x) := by
          apply List.map_congr_left
          intro x _
          by_cases hxr : x = r
          · subst hxr
            simp [hrid, hstale]
          · have hmc : (x ∈ r :: rest) = (x ∈ rest) := by
              simp [List.mem_cons, hxr]
            simp only [hmc]
        have hgtodo' : ∀ x ∈ rest, g x = x := fun x hx => hgtodo x (by simp [hx])
        cases hp : isPending r with
        | true =>
          have hstep : resumeStep now ⟨db0.map g, q, c, sc⟩ r =
              ⟨db0.map g, q ++ [resumeItem r], c + 1, sc⟩ := by
            simp [resumeStep, hstale, hp, resumeItem]
          rw [List.foldl_cons, hstep,
            ih g (q ++ [resumeItem r]) (c + 1) sc hg hgtodo' hmem' hndtodo'.2]
          simp only [List.filter_cons, hstale, hp, ite_true, ite_false,
            List.map_cons, List.length_cons, ResumeResult.mk.injEq]
          refine ⟨?_, ?_, ?_, ?_⟩
          · exact hmapF
          · simp
          · omega
          · rfl
        | false =>
          have hstep : resumeStep now ⟨db0.map g, q, c, sc⟩ r =
              ⟨db0.map g, q, c, sc⟩ := by
            simp [resumeStep, hstale, hp]
          rw [List.foldl_cons, hstep,
            ih g q c sc hg hgtodo' hmem' hndtodo'.2]
          simp only [List.filter_cons, hstale, hp, ite_false,
            ResumeResult.mk.injEq]
          exact ⟨hmapF, rfl, rfl, rfl⟩

/-- Closed form of the recovery scan on a store with well-formed,
duplicate-free ids: every stale `processing` record is reset to
`submitted` in place, and one queue item per `submitted`/`processing`
record is enqueued in reverse store order (i.e. oldest first, since the
store is newest first). -/
theorem resume_pending_tasks_spec (now : Nat) (db0 : DB)
    (hid : ∀ r ∈ db0, recId r = some (.vs (idOf r)))
    (hnd : (db0.map idOf).Nodup) :
    resume_pending_tasks now db0 =
      ⟨ db0.map (resetStale now)
      , (db0.reverse.filter (fun r => isPending r)).map resumeItem
      , (db0.reverse.filter (fun r => isPending r)).length
      , (db0.reverse.filter (fun r => isStaleProcessing now r)).length ⟩ := by
  unfold resume_pending_tasks get_tasks
  have hinit : (⟨db0, [], 0, 0⟩ : ResumeResult) = ⟨db0.map id, [], 0, 0⟩ := by
    rw [List.map_id]
  rw [hinit, resume_foldl now db0 hid hnd db0.reverse id [] 0 0
    (fun x _ => rfl) (fun x _ => rfl) (fun x hx => List.mem_reverse.mp hx)
    (by rw [List.map_reverse]; exact List.nodup_reverse.mpr hnd)]
  have hmap : db0.map (fun x =>
      if x ∈ db0.reverse ∧ isStaleProcessing now x
      then dictSet x "status" (.vs "submitted") else id x)
      = db0.map (resetStale now) := by
    apply List.map_congr_left
    intro x hx
    have : x ∈ db0.reverse := List.mem_reverse.mpr hx
    by_cases hs : isStaleProcessing now x <;> simp [resetStale, this, hs]
  rw [hmap]
  simp

/-! ### Backoff lemmas -/

theorem worker_loop_step_stopped (s : LoopState) (e : LoopEvent)
    (h : s.is_running = false) : worker_loop_step s e = s := by
  simp [worker_loop_step, h]

/-- Unrolling consecutive loop failures while the retry budget lasts:
the k-th failure (1-based, counted from `retry_count`) sleeps
`min(2 ^ k, 60)` seconds. -/
theorem loop_err_fold (N : Nat) :
    ∀ s : LoopState, s.is_running = true → s.retry_count + N < max_retries →
    List.foldl worker_loop_step s (List.replicate N .loopErr) =
      ⟨s.retry_count + N, true,
       s.sleeps ++ (List.range N).map
         (fun k => min (2 ^ (s.retry_count + k + 1)) 60)⟩ := by
  induction N with
  | zero =>
      intro s hr _
      obtain ⟨rc, ir, sl⟩ := s
      simp only at hr
      subst hr
      simp
  | succ n ih =>
      intro s hr hN
      have hrc : ¬ max_retries ≤ s.retry_count + 1 := by
        unfold max_retries at hN ⊢; omega
      have hstep : worker_loop_step s .loopErr =
          ⟨s.retry_count + 1, true,
           s.sleeps ++ [min (2 ^ (s.retry_count + 1)) 60]⟩ := by
        simp [worker_loop_step, hr, hrc]
      have hih := ih ⟨s.retry_count + 1, true,
          s.sleeps ++ [min (2 ^ (s.retry_count + 1)) 60]⟩ rfl
        (by show s.retry_count + 1 + n < max_retries; omega)
      dsimp only at hih
      rw [List.replicate_succ, List.foldl_cons, hstep, hih]
      simp only [LoopState.mk.injEq]
      refine ⟨by omega, trivial, ?_⟩
      rw [List.range_succ_eq_map, List.map_cons, List.map_map,
        List.append_assoc, List.singleton_append]
      have hhead : s.retry_count + 0 + 1 = s.retry_count + 1 := by omega
      have htail : (List.range n).map
            ((fun k => min (2 ^ (s.retry_count + k + 1)) 60) ∘ Nat.succ)
          = (List.range n).map
            (fun k => min (2 ^ (s.retry_count + 1 + k + 1)) 60) := by
        apply List.map_congr_left
        intro k _
        simp only [Function.comp_apply]
        have he : s.retry_count + Nat.succ k + 1 = s.retry_count + 1 + k + 1 := by
          omega
        rw [he]
      rw [hhead, htail]

/-! ## Claim theorems on the functional layer -/

/-- A concrete request with non-default generation parameters. -/
def c2_request : GenerateRequest :=
  { prompt := "a cat", negative_prompt := none,
    steps := 50, width := 1024, height := 768, cfg_scale := 30 }

/-- The record `create_task` persists for `c2_request`. -/
def c2_record : Rec := create_task_record "task-1" 0 c2_request

/-- C2 (code bug): the record persisted by `create_task` carries NO
generation parameters (`steps`, `width`, `height`, `cfg_scale` are all
absent), so the recovery scanner rebuilds the queue item with the
hard-coded defaults `20/512/512/7.5`, losing the caller's original
values (here `steps = 50`, `width = 1024`, `height = 768`,
`cfg_scale = 3`). -/
theorem params_lost_C2 :
    recLookup c2_record "steps" = none
    ∧ recLookup c2_record "width" = none
    ∧ recLookup c2_record "height" = none
    ∧ recLookup c2_record "cfg_scale" = none
    ∧ (resume_pending_tasks 1000 [c2_record]).queued
        = [⟨"task-1", { prompt := "a cat", negative_prompt := none,
                        steps := 20, width := 512, height := 512,
                        cfg_scale := 75 }⟩]
    ∧ (resume_pending_tasks 1000 [c2_record]).queued.map
        (fun it => it.request.steps) = [20]
    ∧ c2_request.steps = 50 := by
  refine ⟨rfl, rfl, rfl, rfl, ?_, ?_, rfl⟩ <;> decide

/-- C3: on a store with well-formed, duplicate-free ids, the recovery
scan (i) resets exactly the `processing` records older than the
10-minute staleness threshold to `submitted` and leaves every other
record unchanged, (ii) enqueues exactly one queue item per
`submitted`/`processing` record — so fresh `processing` records are
re-enqueued without being reset — and (iii) enqueues them in reverse
store order, i.e. original creation order, oldest first (the store is
newest first); each pending record's id occurs exactly once in the
queue. -/
theorem recovery_scan_C3 (now : Nat) (db0 : DB)
    (hid : ∀ r ∈ db0, recId r = some (.vs (idOf r)))
    (hnd : (db0.map idOf).Nodup) :
    (resume_pending_tasks now db0).db = db0.map (resetStale now)
    ∧ (resume_pending_tasks now db0).queued
        = (db0.reverse.filter (fun r => isPending r)).map resumeItem
    ∧ ∀ r ∈ db0, isPending r →
        ((resume_pending_tasks now db0).queued.filter
          (fun it => it.task_id = idOf r)).length = 1 := by
  have hspec := resume_pending_tasks_spec now db0 hid hnd
  refine ⟨by rw [hspec], by rw [hspec], ?_⟩
  intro r hr hpend
  rw [hspec]
  show ((((db0.reverse.filter (fun r => isPending r)).map resumeItem)).filter
    (fun it => it.task_id = idOf r)).length = 1
  rw [← List.countP_eq_length_filter, List.countP_map, List.countP_filter,
    List.countP_reverse]
  have hcongr : ∀ a ∈ db0,
      ((((fun it : QueueItem => decide (it.task_id = idOf r)) ∘ resumeItem) a
        && isPending a) = true ↔ (decide (a = r)) = true) := by
    intro a ha
    by_cases har : a = r
    · subst har
      simp [resumeItem, hpend]
    · have hne : idOf a ≠ idOf r := fun heq =>
        har (List.inj_on_of_nodup_map hnd ha hr heq)
      simp [resumeItem, hne, har]
  rw [List.countP_congr hcongr]
  have hdb0 : db0.Nodup := hnd.of_map
  have hcount : @List.count Rec instBEqOfDecidableEq r db0
      = List.countP (fun a => decide (a = r)) db0 := rfl
  rw [← hcount]
  exact List.count_eq_one_of_mem hdb0 hr

/-- A stale record: created at time 0, manually moved to `processing`
(as the dispatcher does before invoking the engine). -/
def c3rec_old : Rec :=
  dictSet (create_task_record "old-task" 0 { prompt := "p1" })
    "status" (.vs "processing")

/-- A fresh `processing` record created at time 900. -/
def c3rec_new : Rec :=
  dictSet (create_task_record "new-task" 900 { prompt := "p2" })
    "status" (.vs "processing")

/-- A concrete store, newest record first, scanned at time 1000:
`old-task` is 1000 s old (stale), `new-task` only 100 s old. -/
def c3db : DB := [c3rec_new, c3rec_old]

theorem recovery_scan_C3_witness :
    (∀ r ∈ c3db, recId r = some (.vs (idOf r)))
    ∧ (c3db.map idOf).Nodup
    ∧ (resume_pending_tasks 1000 c3db).db = c3db.map (resetStale 1000)
    ∧ (resume_pending_tasks 1000 c3db).queued
        = (c3db.reverse.filter (fun r => isPending r)).map resumeItem
    ∧ ((resume_pending_tasks 1000 c3db).queued.filter
        (fun it => it.task_id = idOf c3rec_old)).length = 1 := by
  refine ⟨by decide, by decide, ?_, ?_, ?_⟩
  · exact (recovery_scan_C3 1000 c3db (by decide) (by decide)).1
  · exact (recovery_scan_C3 1000 c3db (by decide) (by decide)).2.1
  · exact (recovery_scan_C3 1000 c3db (by decide) (by decide)).2.2
      c3rec_old (by decide) (by decide)

/-- C5: (i) while the retry budget lasts, the N-th consecutive failure
of the worker loop sleeps `min(2 ^ N, 60)` seconds before retrying
(the k-th entry of the sleep log, 1-based, is `min(2 ^ k, 60)`);
(ii) on the 5th consecutive failure the worker stops: `is_running`
becomes `false` and the loop exits without a further sleep;
(iii) a completed task processing cycle resets the retry counter to 0. -/
theorem supervisor_backoff_C5 :
    (∀ N : Nat, 1 ≤ N → N < max_retries →
      loopRun (List.replicate N .loopErr) =
        ⟨N, true, (List.range N).map (fun k => min (2 ^ (k + 1)) 60)⟩)
    ∧ loopRun (List.replicate 5 .loopErr) =
        ⟨5, false, (List.range 4).map (fun k => min (2 ^ (k + 1)) 60)⟩
    ∧ (∀ s : LoopState, s.is_running = true →
        (worker_loop_step s .taskCycle).retry_count = 0) := by
  refine ⟨?_, by decide, ?_⟩
  · intro N h1 hN
    unfold loopRun
    rw [loop_err_fold N ⟨0, true, []⟩ rfl
      (by show 0 + N < max_retries; omega)]
    simp
  · intro s h
    simp [worker_loop_step, h]

theorem supervisor_backoff_C5_witness :
    loopRun (List.replicate 3 .loopErr) = ⟨3, true, [2, 4, 8]⟩
    ∧ (worker_loop_step ⟨2, true, [2, 4]⟩ .taskCycle).retry_count = 0 := by
  constructor
  · rw [supervisor_backoff_C5.1 3 (by decide) (by decide)]
    decide
  · exact supervisor_backoff_C5.2.2 ⟨2, true, [2, 4]⟩ rfl

/-- C9: `update_task` on a store whose first record with the target id
is `r` (no earlier record matches) merges the update into exactly that
record — every key written by the update ends at its LAST written value
(last write wins per field), every unwritten key of that record keeps
its old value, and every other record of the store is unchanged. -/
theorem update_task_merge_C9 (pre post : DB) (r u : Rec) (tid : TaskId)
    (hr : recId r = some (.vs tid))
    (hpre : ∀ x ∈ pre, recId x ≠ some (.vs tid)) :
    update_task (pre ++ r :: post) tid u = pre ++ dictUpdate r u :: post
    ∧ (∀ k v, lastVal u k = some v →
        recLookup (dictUpdate r u) k = some v)
    ∧ (∀ k, lastVal u k = none →
        recLookup (dictUpdate r u) k = recLookup r k) :=
  ⟨update_task_first_match pre post r u tid hr hpre,
   fun k v h => recLookup_dictUpdate_of_last r u k v h,
   fun k h => recLookup_dictUpdate_of_not_written r u k h⟩

def c9pre : DB := [[("id", Val.vs "b"), ("status", Val.vs "submitted")]]

def c9rec : Rec :=
  [("id", Val.vs "a"), ("status", Val.vs "submitted"), ("imageUrl", Val.vnone)]

def c9post : DB := [[("id", Val.vs "c"), ("status", Val.vs "completed")]]

def c9upd : Rec :=
  [("status", Val.vs "processing"), ("status", Val.vs "failed"),
   ("error", Val.vs "boom")]

theorem update_task_merge_C9_witness :
    update_task (c9pre ++ c9rec :: c9post) "a" c9upd
      = c9pre ++ dictUpdate c9rec c9upd :: c9post
    ∧ recLookup (dictUpdate c9rec c9upd) "status" = some (.vs "failed")
    ∧ recLookup (dictUpdate c9rec c9upd) "id" = recLookup c9rec "id" := by
  have h := update_task_merge_C9 c9pre c9post c9rec c9upd "a"
    (by decide) (by decide)
  exact ⟨h.1, h.2.1 "status" (.vs "failed") (by decide),
    h.2.2 "id" (by decide)⟩

/-- C10: updating an id that no record of the store carries is a silent
no-op: the store is returned unchanged (no insert, no error). -/
theorem update_task_missing_id_C10 (db : DB) (tid : TaskId) (u : Rec)
    (h : ∀ x ∈ db, recId x ≠ some (.vs tid)) :
    update_task db tid u = db :=
  update_task_absent db tid u h

def c10db : DB :=
  [[("id", Val.vs "x"), ("status", Val.vs "submitted")],
   [("id", Val.vs "y"), ("status", Val.vs "failed")]]

theorem update_task_missing_id_C10_witness :
    update_task c10db "nonexistent" [("status", Val.vs "failed")] = c10db :=
  update_task_missing_id_C10 c10db "nonexistent"
    [("status", Val.vs "failed")] (by decide)

/-! ## The two-domain execution model

`worker.py` runs two execution contexts: the asyncio worker loop
(`_worker_loop` / `process_task`) and the single dedicated GPU thread
(`_gpu_worker_thread`), which communicate through the synchronous
`gpu_queue` and a per-dispatch `asyncio.Future`.  We model the system as
a small-step transition relation over a state carrying both contexts,
the two queues, the persisted store, the engine's loading state and an
event trace.  Each transition is one atomic section of the Python code
(code between suspension/interleaving points whose intermediate states
no other context can observe). -/

/-- The observable loading state of `ModelEngine` (`engine.py`):
`is_ready()`, `is_loading()`, `get_error()` are its projections.  Once
ready the engine never leaves `ready`, and it never returns to
`notStarted`. -/
inductive EngineState where
  | notStarted
  | loading
  | ready
  | errored (msg : String)
deriving DecidableEq

/-- `"模型正在加载中，请稍候再试"` — the not-ready-yet failure message. -/
def loadingFailMsg : String := "模型正在加载中，请稍候再试"

/-- `f"模型加载失败: {engine.get_error()}"`. -/
def loadErrFailMsg (e : String) : String := "模型加载失败: " ++ e

/-- `"模型未就绪"`. -/
def notLoadedMsg : String := "模型未就绪"

/-- `timeout_seconds = 300  # 5 minutes timeout` in `process_task`. -/
def timeout_seconds : Nat := 300

/-- `f"Task {task_id} timed out after {timeout_seconds} seconds"`. -/
def timeoutMsg (tid : TaskId) : String :=
  "Task " ++ tid ++ " timed out after " ++ toString timeout_seconds ++ " seconds"

/-- The state of one `asyncio.Future` result bridge.  `wait_for` cancels
the future on timeout; a cancelled future counts as done. -/
inductive FutState where
  | pending
  | resolvedOk (filename : String)
  | resolvedErr (msg : String)
  | cancelled
deriving DecidableEq

/-- Python `future.done()`. -/
def FutState.done : FutState → Bool
  | .pending => false
  | _ => true

/-- An entry of the synchronous `gpu_queue`:
`{"task_id": ..., "request": ..., "future": ...}` (the future is
identified by its index in the futures table). -/
structure GpuTask where
  task_id : TaskId
  request : GenerateRequest
  futIdx : Nat
deriving DecidableEq

/-- The async worker context: idle in the loop, or suspended inside
`process_task` at `await asyncio.wait_for(future, timeout)`. -/
inductive WorkerSt where
  | idle
  | awaiting (task_id : TaskId) (futIdx : Nat)
deriving DecidableEq

/-- The GPU thread: blocked on `gpu_queue.get`, or executing
`engine.generate` for one task. -/
inductive GpuSt where
  | idle
  | generating (g : GpuTask)
deriving DecidableEq

/-- Observable events, recorded in program order. -/
inductive Event where
  | enqueue (tid : TaskId)
  | dequeue (tid : TaskId)
  | persistProcessing (tid : TaskId)
  | persistCompleted (tid : TaskId)
  | persistFailed (tid : TaskId) (err : String)
  | genStart (tid : TaskId)
  | genEnd (tid : TaskId)
  | resolve (idx : Nat)
  | resolveNoop (idx : Nat)
  | timeoutFired (tid : TaskId)
  | defer
deriving DecidableEq

/-- The whole system state. -/
structure SysState where
  db : DB
  asyncQ : List QueueItem
  gpuQ : List GpuTask
  futures : List FutState
  workerSt : WorkerSt
  gpuSt : GpuSt
  engine : EngineState
  now : Nat
  trace : List Event
deriving DecidableEq

/-- `if future and not future.done(): future.set_result/set_exception` —
single assignment: resolving an already-done (resolved or cancelled)
future is a no-op. -/
def resolveFut (futs : List FutState) (idx : Nat) (v : FutState) :
    List FutState :=
  match futs[idx]? with
  | some f => if f.done then futs else futs.set idx v
  | none => futs

/-- The trace event for a resolution attempt: `resolve` when the future
was still pending, `resolveNoop` when the single-assignment guard made
it a no-op. -/
def resolveEvent (futs : List FutState) (idx : Nat) : Event :=
  match futs[idx]? with
  | some f => if f.done then .resolveNoop idx else .resolve idx
  | none => .resolveNoop idx

/-- `db.update_task(task_id, {"status": "processing"})`. -/
def processingUpd : Rec := [("status", .vs "processing")]

/-- `{"status": "completed", "imageUrl": f"images/{filename}",
"completed_at": ...}`. -/
def completedUpd (filename : String) (now : Nat) : Rec :=
  [ ("status", .vs "completed")
  , ("imageUrl", .vs ("images/" ++ filename))
  , ("completed_at", .vn now) ]

/-- `{"status": "failed", "error": ..., "failed_at": ...}`. -/
def failedUpd (msg : String) (now : Nat) : Rec :=
  [ ("status", .vs "failed")
  , ("error", .vs msg)
  , ("failed_at", .vn now) ]

/-! ### Post-states of the atomic sections -/

/-- `create_task` (`main.py`): persist the new record with status
`submitted`, then `worker.add_task` puts the queue item on the worker
queue. -/
def submitPost (s : SysState) (tid : TaskId) (req : GenerateRequest) :
    SysState :=
  { s with
      db := add_task s.db (create_task_record tid s.now req)
      asyncQ := s.asyncQ ++ [⟨tid, req⟩]
      trace := s.trace ++ [.enqueue tid] }

/-- The worker loop dequeues the head item with the engine ready;
`process_task` persists `processing`, creates the future, puts the GPU
task on `gpu_queue` and suspends at `await wait_for(future, 300)`. -/
def dequeueReadyPost (s : SysState) (it : QueueItem)
    (rest : List QueueItem) : SysState :=
  { s with
      asyncQ := rest
      db := update_task s.db it.task_id processingUpd
      gpuQ := s.gpuQ ++ [⟨it.task_id, it.request, s.futures.length⟩]
      futures := s.futures ++ [.pending]
      workerSt := .awaiting it.task_id s.futures.length
      trace := s.trace ++ [.dequeue it.task_id, .persistProcessing it.task_id] }

/-- The worker loop dequeues the head item while the engine is not
ready; `process_task` persists `failed` with the engine-specific error
and returns without touching `gpu_queue` (no re-queue). -/
def dequeueFailPost (s : SysState) (it : QueueItem)
    (rest : List QueueItem) (msg : String) : SysState :=
  { s with
      asyncQ := rest
      db := update_task s.db it.task_id (failedUpd msg s.now)
      trace := s.trace ++ [.dequeue it.task_id, .persistFailed it.task_id msg] }

/-- The worker loop sees the engine not yet started loading:
`await asyncio.sleep(0.5); continue` — nothing is dequeued. -/
def deferPost (s : SysState) : SysState :=
  { s with trace := s.trace ++ [.defer] }

/-- The GPU thread takes the head GPU task and (the engine being ready)
enters `engine.generate`. -/
def gpuStartPost (s : SysState) (g : GpuTask) (rest : List GpuTask) :
    SysState :=
  { s with
      gpuQ := rest
      gpuSt := .generating g
      trace := s.trace ++ [.genStart g.task_id] }

/-- The GPU thread takes the head GPU task but finds the engine not
ready: it resolves the future with the engine-specific error (single
assignment guard) and never calls `generate`. -/
def gpuNotReadyPost (s : SysState) (g : GpuTask) (rest : List GpuTask)
    (msg : String) : SysState :=
  { s with
      gpuQ := rest
      futures := resolveFut s.futures g.futIdx (.resolvedErr msg)
      trace := s.trace ++ [resolveEvent s.futures g.futIdx] }

/-- `engine.generate` returns `filename`; the GPU thread attempts
`future.set_result(filename)` (a no-op if the future is already done). -/
def gpuFinishOkPost (s : SysState) (g : GpuTask) (filename : String) :
    SysState :=
  { s with
      gpuSt := .idle
      futures := resolveFut s.futures g.futIdx (.resolvedOk filename)
      trace := s.trace ++ [.genEnd g.task_id, resolveEvent s.futures g.futIdx] }

/-- `engine.generate` raises; the GPU thread attempts
`future.set_exception(e)`. -/
def gpuFinishErrPost (s : SysState) (g : GpuTask) (msg : String) :
    SysState :=
  { s with
      gpuSt := .idle
      futures := resolveFut s.futures g.futIdx (.resolvedErr msg)
      trace := s.trace ++ [.genEnd g.task_id, resolveEvent s.futures g.futIdx] }

/-- The awaited future resolved with a filename before the timeout:
`process_task` persists `completed` with `imageUrl = f"images/{filename}"`
and a completion timestamp, and the worker loop resumes. -/
def workerOkPost (s : SysState) (tid : TaskId) (filename : String) :
    SysState :=
  { s with
      workerSt := .idle
      db := update_task s.db tid (completedUpd filename s.now)
      trace := s.trace ++ [.persistCompleted tid] }

/-- The awaited future resolved with an exception: the inner handler
persists `failed` and re-raises, and the outer handler persists the
same `failed` update again. -/
def workerFailPost (s : SysState) (tid : TaskId) (msg : String) :
    SysState :=
  { s with
      workerSt := .idle
      db := update_task (update_task s.db tid (failedUpd msg s.now))
        tid (failedUpd msg s.now)
      trace := s.trace ++ [.persistFailed tid msg, .persistFailed tid msg] }

/-- The 300 s timeout fires at `await wait_for(future, 300)`: `wait_for`
cancels the future (the GPU thread's own `generate` call is NOT
cancelled), the `except asyncio.TimeoutError` handler persists `failed`
with the timeout message and re-raises, and the outer generic handler
persists `failed` again with `str(e)` — the EMPTY string for a
`TimeoutError` — overwriting the error message. -/
def workerTimeoutPost (s : SysState) (tid : TaskId) (idx : Nat) :
    SysState :=
  { s with
      workerSt := .idle
      futures := s.futures.set idx .cancelled
      db := update_task (update_task s.db tid (failedUpd (timeoutMsg tid) s.now))
        tid (failedUpd "" s.now)
      trace := s.trace ++ [.timeoutFired tid,
        .persistFailed tid (timeoutMsg tid), .persistFailed tid ""] }

/-- A clock tick. -/
def tickPost (s : SysState) : SysState := { s with now := s.now + 1 }

/-- An engine loading-state change (performed by `load_model` in the
loading thread). -/
def engineToPost (s : SysState) (e : EngineState) : SysState :=
  { s with engine := e }

/-- One interleaved step of the system.

Notes on faithfulness to `worker.py`:
* `submit` requires a fresh id — ids are `str(uuid.uuid4())`.
* `process_task`'s own not-ready recheck has three branches; its
  `"模型未就绪"` (not started loading) branch is unreachable: the worker
  loop's pre-check (`_worker_loop` lines 89-104) defers without
  dequeuing while the engine has not started loading, and the engine
  never returns to the not-started state once `load_model` begins.
  The dequeue transitions therefore carry the loading/errored failure
  branches only.  The GPU thread's identical recheck is kept in full
  (`gpuNotReadyOther`); the invariant proves all three `gpuNotReady*`
  transitions unreachable, since items enter `gpu_queue` only after the
  worker saw `is_ready()` and readiness is permanent. -/
inductive Step : SysState → SysState → Prop where
  | submit (s : SysState) (tid : TaskId) (req : GenerateRequest)
      (hfresh : get_task s.db tid = none) :
      Step s (submitPost s tid req)
  | dequeueReady (s : SysState) (it : QueueItem) (rest : List QueueItem)
      (hw : s.workerSt = .idle) (hq : s.asyncQ = it :: rest)
      (he : s.engine = .ready) :
      Step s (dequeueReadyPost s it rest)
  | dequeueLoading (s : SysState) (it : QueueItem) (rest : List QueueItem)
      (hw : s.workerSt = .idle) (hq : s.asyncQ = it :: rest)
      (he : s.engine = .loading) :
      Step s (dequeueFailPost s it rest loadingFailMsg)
  | dequeueErrored (s : SysState) (it : QueueItem) (rest : List QueueItem)
      (e : String)
      (hw : s.workerSt = .idle) (hq : s.asyncQ = it :: rest)
      (he : s.engine = .errored e) :
      Step s (dequeueFailPost s it rest (loadErrFailMsg e))
  | deferNotStarted (s : SysState)
      (hw : s.workerSt = .idle) (he : s.engine = .notStarted) :
      Step s (deferPost s)
  | gpuStart (s : SysState) (g : GpuTask) (rest : List GpuTask)
      (hg : s.gpuSt = .idle) (hq : s.gpuQ = g :: rest)
      (he : s.engine = .ready) :
      Step s (gpuStartPost s g rest)
  | gpuNotReadyLoading (s : SysState) (g : GpuTask) (rest : List GpuTask)
      (hg : s.gpuSt = .idle) (hq : s.gpuQ = g :: rest)
      (he : s.engine = .loading) :
      Step s (gpuNotReadyPost s g rest loadingFailMsg)
  | gpuNotReadyErrored (s : SysState) (g : GpuTask) (rest : List GpuTask)
      (e : String)
      (hg : s.gpuSt = .idle) (hq : s.gpuQ = g :: rest)
      (he : s.engine = .errored e) :
      Step s (gpuNotReadyPost s g rest (loadErrFailMsg e))
  | gpuNotReadyOther (s : SysState) (g : GpuTask) (rest : List GpuTask)
      (hg : s.gpuSt = .idle) (hq : s.gpuQ = g :: rest)
      (he : s.engine = .notStarted) :
      Step s (gpuNotReadyPost s g rest notLoadedMsg)
  | gpuFinishOk (s : SysState) (g : GpuTask) (filename : String)
      (hg : s.gpuSt = .generating g) :
      Step s (gpuFinishOkPost s g filename)
  | gpuFinishErr (s : SysState) (g : GpuTask) (msg : String)
      (hg : s.gpuSt = .generating g) :
      Step s (gpuFinishErrPost s g msg)
  | workerOk (s : SysState) (tid : TaskId) (idx : Nat) (filename : String)
      (hw : s.workerSt = .awaiting tid idx)
      (hf : s.futures[idx]? = some (.resolvedOk filename)) :
      Step s (workerOkPost s tid filename)
  | workerFail (s : SysState) (tid : TaskId) (idx : Nat) (msg : String)
      (hw : s.workerSt = .awaiting tid idx)
      (hf : s.futures[idx]? = some (.resolvedErr msg)) :
      Step s (workerFailPost s tid msg)
  | workerTimeout (s : SysState) (tid : TaskId) (idx : Nat)
      (hw : s.workerSt = .awaiting tid idx)
      (hf : s.futures[idx]? = some .pending) :
      Step s (workerTimeoutPost s tid idx)
  | engineStartLoading (s : SysState) (he : s.engine = .notStarted) :
      Step s (engineToPost s .loading)
  | engineLoaded (s : SysState) (he : s.engine = .loading) :
      Step s (engineToPost s .ready)
  | engineFailed (s : SysState) (e : String) (he : s.engine = .loading) :
      Step s (engineToPost s (.errored e))
  | engineReload (s : SysState) (e : String) (he : s.engine = .errored e) :
      Step s (engineToPost s .loading)
  | tick (s : SysState) : Step s (tickPost s)

/-- The state at process start: empty store, empty queues, engine not
yet loading. -/
def sysInit : SysState :=
  { db := [], asyncQ := [], gpuQ := [], futures := []
  , workerSt := .idle, gpuSt := .idle, engine := .notStarted
  , now := 0, trace := [] }

/-- States reachable from process start. -/
inductive Reachable : SysState → Prop where
  | init : Reachable sysInit
  | step {s s' : SysState} (h : Reachable s) (hs : Step s s') : Reachable s'

/-! ### Trace observations -/

/-- Ids of tasks put on the worker queue, in order. -/
def enqueuedIds (l : List Event) : List TaskId :=
  l.filterMap fun e => match e with | .enqueue t => some t | _ => none

/-- Ids of tasks taken off the worker queue, in order. -/
def dequeuedIds (l : List Event) : List TaskId :=
  l.filterMap fun e => match e with | .dequeue t => some t | _ => none

/-- Ids of tasks marked `processing` and handed to the GPU queue
(step 2 of the dispatch), in order. -/
def dispatchedIds (l : List Event) : List TaskId :=
  l.filterMap fun e => match e with | .persistProcessing t => some t | _ => none

/-- Ids of tasks whose `engine.generate` invocation started, in order. -/
def genStartIds (l : List Event) : List TaskId :=
  l.filterMap fun e => match e with | .genStart t => some t | _ => none

/-- Whether an await-timeout has fired anywhere in the trace. -/
def hasTimeout (l : List Event) : Bool :=
  l.any fun e => match e with | .timeoutFired _ => true | _ => false

/-- The task has been persisted `completed` or `failed`. -/
def terminal (t : TaskId) (l : List Event) : Prop :=
  Event.persistCompleted t ∈ l ∨ ∃ msg, Event.persistFailed t msg ∈ l

/-- The task the GPU thread is currently generating, if any. -/
def gpuActive : GpuSt → Option TaskId
  | .idle => none
  | .generating g => some g.task_id

/-- One step of the generate-interval scanner: tracks the currently
open `generate` invocation and rejects any overlap (a `genStart` while
one is open, or a `genEnd` that does not match). -/
def genScanStep : Option (Option TaskId) → Event → Option (Option TaskId)
  | none, _ => none
  | some cur, .genStart t =>
      match cur with
      | none => some (some t)
      | some _ => none
  | some cur, .genEnd t =>
      match cur with
      | some t' => if t = t' then some none else none
      | none => none
  | some cur, _ => some cur

/-- Scans the trace's `genStart`/`genEnd` events; returns `some cur`
(the currently open invocation) exactly when they form a well-nested
alternation — i.e. no two `generate` invocations ever overlap. -/
def genScan (l : List Event) : Option (Option TaskId) :=
  l.foldl genScanStep (some none)

/-- `persistProcessing t` happens strictly before every `genStart t`. -/
def GenGuarded (t : TaskId) (l : List Event) : Prop :=
  ∀ u v, l = u ++ Event.genStart t :: v → Event.persistProcessing t ∈ u

theorem genScan_append (l es : List Event) :
    genScan (l ++ es) = es.foldl genScanStep (genScan l) := by
  unfold genScan
  rw [List.foldl_append]

/-- The resolution-attempt event is always one of `resolve`/`resolveNoop`. -/
theorem resolveEvent_cases (futs : List FutState) (idx : Nat) :
    resolveEvent futs idx = .resolve idx ∨ resolveEvent futs idx = .resolveNoop idx := by
  unfold resolveEvent
  cases futs[idx]? with
  | none => right; rfl
  | some f => cases hf : f.done <;> simp [hf]

theorem genScanStep_resolveEvent (c : Option TaskId) (futs : List FutState)
    (idx : Nat) :
    genScanStep (some c) (resolveEvent futs idx) = some c := by
  rcases resolveEvent_cases futs idx with h | h <;> rw [h] <;> rfl

theorem genStart_ne_resolveEvent (t : TaskId) (futs : List FutState)
    (idx : Nat) : Event.genStart t ≠ resolveEvent futs idx := by
  rcases resolveEvent_cases futs idx with h | h <;> rw [h] <;> intro hc <;>
    exact Event.noConfusion hc

/-- Appending events preserves `GenGuarded` provided every appended
`genStart t` already has its `persistProcessing t` in the old trace. -/
theorem genGuarded_append (t : TaskId) (l es : List Event)
    (h1 : GenGuarded t l)
    (h2 : Event.genStart t ∈ es → Event.persistProcessing t ∈ l) :
    GenGuarded t (l ++ es) := by
  intro u v heq
  rcases List.append_eq_append_iff.mp heq with ⟨a', hu, hes⟩ | ⟨c', hl, hx⟩
  · subst hu
    have hmem : Event.genStart t ∈ es := by rw [hes]; simp
    exact List.mem_append_left a' (h2 hmem)
  · cases c' with
    | nil =>
        simp only [List.nil_append] at hx
        have hmem : Event.genStart t ∈ es := by rw [← hx]; simp
        rw [List.append_nil] at hl
        rw [← hl]
        exact h2 hmem
    | cons x xs =>
        have hx1 : x = Event.genStart t := by
          have := congrArg (fun l => l.head?) hx
          simpa using this.symm
        exact h1 u xs (by rw [hl, hx1])

@[simp] theorem enqueuedIds_nil : enqueuedIds [] = [] := rfl

@[simp] theorem dequeuedIds_nil : dequeuedIds [] = [] := rfl

@[simp] theorem dispatchedIds_nil : dispatchedIds [] = [] := rfl

@[simp] theorem genStartIds_nil : genStartIds [] = [] := rfl

@[simp] theorem hasTimeout_nil : hasTimeout [] = false := rfl

@[simp] theorem enqueuedIds_append (l l' : List Event) :
    enqueuedIds (l ++ l') = enqueuedIds l ++ enqueuedIds l' :=
  List.filterMap_append l l' _

@[simp] theorem dequeuedIds_append (l l' : List Event) :
    dequeuedIds (l ++ l') = dequeuedIds l ++ dequeuedIds l' :=
  List.filterMap_append l l' _

@[simp] theorem dispatchedIds_append (l l' : List Event) :
    dispatchedIds (l ++ l') = dispatchedIds l ++ dispatchedIds l' :=
  List.filterMap_append l l' _

@[simp] theorem genStartIds_append (l l' : List Event) :
    genStartIds (l ++ l') = genStartIds l ++ genStartIds l' :=
  List.filterMap_append l l' _

@[simp] theorem hasTimeout_append (l l' : List Event) :
    hasTimeout (l ++ l') = (hasTimeout l || hasTimeout l') :=
  List.any_append

@[simp] theorem enqueuedIds_cons (e : Event) (l : List Event) :
    enqueuedIds (e :: l) =
      (match e with | .enqueue t => [t] | _ => []) ++ enqueuedIds l := by
  cases e <;> rfl

@[simp] theorem dequeuedIds_cons (e : Event) (l : List Event) :
    dequeuedIds (e :: l) =
      (match e with | .dequeue t => [t] | _ => []) ++ dequeuedIds l := by
  cases e <;> rfl

@[simp] theorem dispatchedIds_cons (e : Event) (l : List Event) :
    dispatchedIds (e :: l) =
      (match e with | .persistProcessing t => [t] | _ => [])
        ++ dispatchedIds l := by
  cases e <;> rfl

@[simp] theorem genStartIds_cons (e : Event) (l : List Event) :
    genStartIds (e :: l) =
      (match e with | .genStart t => [t] | _ => []) ++ genStartIds l := by
  cases e <;> rfl

@[simp] theorem hasTimeout_cons (e : Event) (l : List Event) :
    hasTimeout (e :: l) =
      ((match e with | .timeoutFired _ => true | _ => false)
        || hasTimeout l) := by
  cases e <;> rfl

theorem hasTimeout_append_false {l es : List Event}
    (h : hasTimeout (l ++ es) = false) : hasTimeout l = false := by
  rw [hasTimeout_append] at h
  exact (Bool.or_eq_false_iff.mp h).1

theorem terminal_mono (t : TaskId) (l es : List Event) (h : terminal t l) :
    terminal t (l ++ es) := by
  rcases h with h | ⟨m, h⟩
  · exact Or.inl (List.mem_append_left es h)
  · exact Or.inr ⟨m, List.mem_append_left es h⟩

@[simp] theorem genScanStep_enqueue (c : Option TaskId) (t : TaskId) :
    genScanStep (some c) (.enqueue t) = some c := rfl

@[simp] theorem genScanStep_dequeue (c : Option TaskId) (t : TaskId) :
    genScanStep (some c) (.dequeue t) = some c := rfl

@[simp] theorem genScanStep_persistProcessing (c : Option TaskId) (t : TaskId) :
    genScanStep (some c) (.persistProcessing t) = some c := rfl

@[simp] theorem genScanStep_persistCompleted (c : Option TaskId) (t : TaskId) :
    genScanStep (some c) (.persistCompleted t) = some c := rfl

@[simp] theorem genScanStep_persistFailed (c : Option TaskId) (t : TaskId)
    (msg : String) : genScanStep (some c) (.persistFailed t msg) = some c := rfl

@[simp] theorem genScanStep_resolve (c : Option TaskId) (idx : Nat) :
    genScanStep (some c) (.resolve idx) = some c := rfl

@[simp] theorem genScanStep_resolveNoop (c : Option TaskId) (idx : Nat) :
    genScanStep (some c) (.resolveNoop idx) = some c := rfl

@[simp] theorem genScanStep_timeoutFired (c : Option TaskId) (t : TaskId) :
    genScanStep (some c) (.timeoutFired t) = some c := rfl

@[simp] theorem genScanStep_defer (c : Option TaskId) :
    genScanStep (some c) .defer = some c := rfl

@[simp] theorem genScanStep_genStart_none (t : TaskId) :
    genScanStep (some none) (.genStart t) = some (some t) := rfl

@[simp] theorem genScanStep_genEnd_some (t : TaskId) :
    genScanStep (some (some t)) (.genEnd t) = some none := by
  simp [genScanStep]

@[simp] theorem gpuActive_idle : gpuActive .idle = none := rfl

@[simp] theorem gpuActive_generating (g : GpuTask) :
    gpuActive (.generating g) = some g.task_id := rfl

/-! ### The dispatch invariant -/

/-- When the worker is back in its loop (able to take the next head
item), the whole previous dispatch has finished: the GPU queue is
empty, the GPU thread is idle, and every dispatched task has a terminal
status persisted. -/
def IdlePhase (s : SysState) : Prop :=
  s.gpuQ = [] ∧ s.gpuSt = .idle ∧
  ∀ t ∈ dispatchedIds s.trace, terminal t s.trace

/-- Lifecycle of the one in-flight dispatch `(tid, idx)`: queued for
the GPU thread, generating, or resolved. -/
def BridgePhase (gpuQ : List GpuTask) (gpuSt : GpuSt)
    (futures : List FutState) (tid : TaskId) (idx : Nat) : Prop :=
  (∃ req, gpuQ = [⟨tid, req, idx⟩] ∧ gpuSt = .idle ∧
      futures[idx]? = some .pending)
  ∨ (∃ req, gpuQ = [] ∧ gpuSt = .generating ⟨tid, req, idx⟩ ∧
      futures[idx]? = some .pending)
  ∨ (gpuQ = [] ∧ gpuSt = .idle ∧
      ∃ f, futures[idx]? = some f ∧ f ≠ .pending)

/-- While the worker awaits the result bridge of `(tid, idx)`, only
that dispatch is unfinished. -/
def AwaitPhase (s : SysState) (tid : TaskId) (idx : Nat) : Prop :=
  (∀ t ∈ dispatchedIds s.trace, t = tid ∨ terminal t s.trace) ∧
  BridgePhase s.gpuQ s.gpuSt s.futures tid idx

/-- The phase discipline of the dispatcher, valid until a timeout has
fired (a timeout abandons the in-flight dispatch, so the worker can be
idle while the GPU thread still works). -/
def WPhase (s : SysState) : Prop :=
  (s.workerSt = .idle → IdlePhase s) ∧
  (∀ tid idx, s.workerSt = .awaiting tid idx → AwaitPhase s tid idx)

/-- The master invariant of all reachable states. -/
structure Inv (s : SysState) : Prop where
  engineIdle : s.engine ≠ .ready → s.gpuQ = [] ∧ s.gpuSt = .idle
  fifo1 : dequeuedIds s.trace ++ s.asyncQ.map (fun it => it.task_id)
      = enqueuedIds s.trace
  fifo2 : genStartIds s.trace ++ s.gpuQ.map (fun g => g.task_id)
      = dispatchedIds s.trace
  fifo3 : List.Sublist (dispatchedIds s.trace) (dequeuedIds s.trace)
  gen : genScan s.trace = some (gpuActive s.gpuSt)
  guardQ : ∀ g ∈ s.gpuQ, Event.persistProcessing g.task_id ∈ s.trace
  guardG : ∀ t, GenGuarded t s.trace
  phase : hasTimeout s.trace = false → WPhase s

theorem dispTerminal_mono (l es : List Event)
    (h : ∀ t ∈ dispatchedIds l, terminal t l)
    (hes : dispatchedIds es = []) :
    ∀ t ∈ dispatchedIds (l ++ es), terminal t (l ++ es) := by
  intro t ht
  rw [dispatchedIds_append, hes, List.append_nil] at ht
  exact terminal_mono _ _ _ (h t ht)

theorem dispTid_mono (l es : List Event) (tid : TaskId)
    (h : ∀ t ∈ dispatchedIds l, t = tid ∨ terminal t l)
    (hes : dispatchedIds es = []) :
    ∀ t ∈ dispatchedIds (l ++ es), t = tid ∨ terminal t (l ++ es) := by
  intro t ht
  rw [dispatchedIds_append, hes, List.append_nil] at ht
  rcases h t ht with h' | h'
  · exact Or.inl h'
  · exact Or.inr (terminal_mono _ _ _ h')

theorem resolveFut_pending_getElem {futs : List FutState} {idx : Nat}
    (h : futs[idx]? = some .pending) (v : FutState) :
    (resolveFut futs idx v)[idx]? = some v := by
  have hlt : idx < futs.length := (List.getElem?_eq_some_iff.mp h).1
  unfold resolveFut
  rw [h]
  show (if FutState.pending.done = true then futs else futs.set idx v)[idx]?
    = some v
  rw [show FutState.pending.done = false from rfl]
  simp [List.getElem?_set_self hlt]

/-- Every reachable state satisfies the master invariant. -/
theorem inv_reachable {s : SysState} (h : Reachable s) : Inv s := by
  induction h with
  | init =>
      refine ⟨fun _ => ⟨rfl, rfl⟩, rfl, rfl, List.Sublist.refl _, rfl,
        ?_, ?_, ?_⟩
      · intro g hg
        simp [sysInit] at hg
      · intro t u v heq
        exact absurd heq (by simp [sysInit])
      · intro _
        exact ⟨fun _ => ⟨rfl, rfl, by intro t ht; simp [sysInit] at ht⟩,
          fun tid idx hws => absurd hws (by simp [sysInit])⟩
  | step hR hS ih =>
      rename_i s s'
      clear hR
      cases hS with
      | submit tid req hfresh =>
          refine ⟨?_, ?_, ?_, ?_, ?_, ?_, ?_, ?_⟩
          · exact fun h => ih.engineIdle h
          · dsimp only [submitPost]
            simp only [dequeuedIds_append, enqueuedIds_append,
              dequeuedIds_cons, enqueuedIds_cons, dequeuedIds_nil,
              enqueuedIds_nil, List.map_append, List.map_cons, List.map_nil,
              List.append_nil, List.nil_append]
            rw [← List.append_assoc, ih.fifo1]
          · dsimp only [submitPost]
            simp only [genStartIds_append, dispatchedIds_append,
              genStartIds_cons, dispatchedIds_cons, genStartIds_nil,
              dispatchedIds_nil, List.append_nil]
            exact ih.fifo2
          · dsimp only [submitPost]
            simp only [dispatchedIds_append, dequeuedIds_append,
              dispatchedIds_cons, dequeuedIds_cons, dispatchedIds_nil,
              dequeuedIds_nil, List.append_nil]
            exact ih.fifo3
          · dsimp only [submitPost]
            rw [genScan_append, ih.gen]
            simp
          · intro g hg
            exact List.mem_append_left _ (ih.guardQ g hg)
          · intro t
            dsimp only [submitPost]
            refine genGuarded_append t _ _ (ih.guardG t) ?_
            intro hmem
            simp at hmem
          · intro hto
            dsimp only [submitPost] at hto ⊢
            have hto' := hasTimeout_append_false hto
            have hph := ih.phase hto'
            constructor
            · intro hid
              obtain ⟨h1, h2, h3⟩ := hph.1 hid
              exact ⟨h1, h2, dispTerminal_mono _ _ h3 (by simp)⟩
            · intro tid' idx' hws
              obtain ⟨h1, h2⟩ := hph.2 tid' idx' hws
              exact ⟨dispTid_mono _ _ _ h1 (by simp), h2⟩
      | dequeueReady it rest hw hq he =>
          refine ⟨?_, ?_, ?_, ?_, ?_, ?_, ?_, ?_⟩
          · intro hcon
            exact absurd he hcon
          · dsimp only [dequeueReadyPost]
            simp only [dequeuedIds_append, enqueuedIds_append,
              dequeuedIds_cons, enqueuedIds_cons, dequeuedIds_nil,
              enqueuedIds_nil, List.append_nil, List.nil_append]
            rw [List.append_assoc]
            have := ih.fifo1
            rw [hq] at this
            simpa using this
          · dsimp only [dequeueReadyPost]
            simp only [genStartIds_append, dispatchedIds_append,
              genStartIds_cons, dispatchedIds_cons, genStartIds_nil,
              dispatchedIds_nil, List.append_nil, List.nil_append,
              List.map_append, List.map_cons, List.map_nil]
            rw [← List.append_assoc, ih.fifo2]
          · dsimp only [dequeueReadyPost]
            simp only [dispatchedIds_append, dequeuedIds_append,
              dispatchedIds_cons, dequeuedIds_cons, dispatchedIds_nil,
              dequeuedIds_nil, List.append_nil, List.nil_append]
            exact ih.fifo3.append (List.Sublist.refl _)
          · dsimp only [dequeueReadyPost]
            rw [genScan_append, ih.gen]
            simp
          · intro g hg
            dsimp only [dequeueReadyPost] at hg ⊢
            rcases List.mem_append.mp hg with hg' | hg'
            · exact List.mem_append_left _ (ih.guardQ g hg')
            · simp at hg'
              subst hg'
              simp
          · intro t
            dsimp only [dequeueReadyPost]
            refine genGuarded_append t _ _ (ih.guardG t) ?_
            intro hmem
            simp at hmem
          · intro hto
            dsimp only [dequeueReadyPost] at hto ⊢
            have hto' := hasTimeout_append_false hto
            obtain ⟨hgq, hgs, hterm⟩ := (ih.phase hto').1 hw
            constructor
            · intro hcon
              exact absurd hcon (by simp)
            · intro tid' idx' hws
              have h1 : it.task_id = tid' := by injection hws
              have h2 : s.futures.length = idx' := by injection hws
              subst h1; subst h2
              constructor
              · intro t ht
                simp only [dispatchedIds_append, dispatchedIds_cons,
                  dispatchedIds_nil, List.append_nil, List.nil_append,
                  List.mem_append] at ht
                rcases ht with ht | ht
                · exact Or.inr (terminal_mono _ _ _ (hterm t ht))
                · simp at ht
                  exact Or.inl ht
              · left
                refine ⟨it.request, ?_, hgs, ?_⟩
                · rw [hgq]; rfl
                · exact List.getElem?_concat_length _ _
      | dequeueLoading it rest hw hq he =>
          refine ⟨?_, ?_, ?_, ?_, ?_, ?_, ?_, ?_⟩
          · exact fun h => ih.engineIdle h
          · dsimp only [dequeueFailPost]
            simp only [dequeuedIds_append, enqueuedIds_append,
              dequeuedIds_cons, enqueuedIds_cons, dequeuedIds_nil,
              enqueuedIds_nil, List.append_nil, List.nil_append]
            rw [List.append_assoc]
            have := ih.fifo1
            rw [hq] at this
            simpa using this
          · dsimp only [dequeueFailPost]
            simp only [genStartIds_append, dispatchedIds_append,
              genStartIds_cons, dispatchedIds_cons, genStartIds_nil,
              dispatchedIds_nil, List.append_nil]
            exact ih.fifo2
          · dsimp only [dequeueFailPost]
            simp only [dispatchedIds_append, dequeuedIds_append,
              dispatchedIds_cons, dequeuedIds_cons, dispatchedIds_nil,
              dequeuedIds_nil, List.append_nil, List.nil_append]
            exact ih.fifo3.trans (List.sublist_append_left _ _)
          · dsimp only [dequeueFailPost]
            rw [genScan_append, ih.gen]
            simp
          · intro g hg
            exact List.mem_append_left _ (ih.guardQ g hg)
          · intro t
            dsimp only [dequeueFailPost]
            refine genGuarded_append t _ _ (ih.guardG t) ?_
            intro hmem
            simp at hmem
          · intro hto
            dsimp only [dequeueFailPost] at hto ⊢
            have hto' := hasTimeout_append_false hto
            obtain ⟨hgq, hgs, hterm⟩ := (ih.phase hto').1 hw
            constructor
            · intro _
              exact ⟨hgq, hgs, dispTerminal_mono _ _ hterm (by simp)⟩
            · intro tid' idx' hws
              rw [hw] at hws
              exact absurd hws (by simp)
      | dequeueErrored it rest e hw hq he =>
          refine ⟨?_, ?_, ?_, ?_, ?_, ?_, ?_, ?_⟩
          · exact fun h => ih.engineIdle h
          · dsimp only [dequeueFailPost]
            simp only [dequeuedIds_append, enqueuedIds_append,
              dequeuedIds_cons, enqueuedIds_cons, dequeuedIds_nil,
              enqueuedIds_nil, List.append_nil, List.nil_append]
            rw [List.append_assoc]
            have := ih.fifo1
            rw [hq] at this
            simpa using this
          · dsimp only [dequeueFailPost]
            simp only [genStartIds_append, dispatchedIds_append,
              genStartIds_cons, dispatchedIds_cons, genStartIds_nil,
              dispatchedIds_nil, List.append_nil]
            exact ih.fifo2
          · dsimp only [dequeueFailPost]
            simp only [dispatchedIds_append, dequeuedIds_append,
              dispatchedIds_cons, dequeuedIds_cons, dispatchedIds_nil,
              dequeuedIds_nil, List.append_nil, List.nil_append]
            exact ih.fifo3.trans (List.sublist_append_left _ _)
          · dsimp only [dequeueFailPost]
            rw [genScan_append, ih.gen]
            simp
          · intro g hg
            exact List.mem_append_left _ (ih.guardQ g hg)
          · intro t
            dsimp only [dequeueFailPost]
            refine genGuarded_append t _ _ (ih.guardG t) ?_
            intro hmem
            simp at hmem
          · intro hto
            dsimp only [dequeueFailPost] at hto ⊢
            have hto' := hasTimeout_append_false hto
            obtain ⟨hgq, hgs, hterm⟩ := (ih.phase hto').1 hw
            constructor
            · intro _
              exact ⟨hgq, hgs, dispTerminal_mono _ _ hterm (by simp)⟩
            · intro tid' idx' hws
              rw [hw] at hws
              exact absurd hws (by simp)
      | deferNotStarted hw he =>
          refine ⟨?_, ?_, ?_, ?_, ?_, ?_, ?_, ?_⟩
          · exact fun h => ih.engineIdle h
          · dsimp only [deferPost]
            simp only [dequeuedIds_append, enqueuedIds_append,
              dequeuedIds_cons, enqueuedIds_cons, dequeuedIds_nil,
              enqueuedIds_nil, List.append_nil]
            exact ih.fifo1
          · dsimp only [deferPost]
            simp only [genStartIds_append, dispatchedIds_append,
              genStartIds_cons, dispatchedIds_cons, genStartIds_nil,
              dispatchedIds_nil, List.append_nil]
            exact ih.fifo2
          · dsimp only [deferPost]
            simp only [dispatchedIds_append, dequeuedIds_append,
              dispatchedIds_cons, dequeuedIds_cons, dispatchedIds_nil,
              dequeuedIds_nil, List.append_nil]
            exact ih.fifo3
          · dsimp only [deferPost]
            rw [genScan_append, ih.gen]
            simp
          · intro g hg
            exact List.mem_append_left _ (ih.guardQ g hg)
          · intro t
            dsimp only [deferPost]
            refine genGuarded_append t _ _ (ih.guardG t) ?_
            intro hmem
            simp at hmem
          · intro hto
            dsimp only [deferPost] at hto ⊢
            have hto' := hasTimeout_append_false hto
            have hph := ih.phase hto'
            constructor
            · intro hid
              obtain ⟨h1, h2, h3⟩ := hph.1 hid
              exact ⟨h1, h2, dispTerminal_mono _ _ h3 (by simp)⟩
            · intro tid' idx' hws
              obtain ⟨h1, h2⟩ := hph.2 tid' idx' hws
              exact ⟨dispTid_mono _ _ _ h1 (by simp), h2⟩
      | gpuStart g rest hg hq he =>
          refine ⟨?_, ?_, ?_, ?_, ?_, ?_, ?_, ?_⟩
          · intro hcon
            exact absurd he hcon
          · dsimp only [gpuStartPost]
            simp only [dequeuedIds_append, enqueuedIds_append,
              dequeuedIds_cons, enqueuedIds_cons, dequeuedIds_nil,
              enqueuedIds_nil, List.append_nil]
            exact ih.fifo1
          · dsimp only [gpuStartPost]
            simp only [genStartIds_append, genStartIds_cons,
              dispatchedIds_append, dispatchedIds_cons, genStartIds_nil,
              dispatchedIds_nil, List.append_nil, List.nil_append]
            have := ih.fifo2
            rw [hq] at this
            rw [List.append_assoc]
            simpa using this
          · dsimp only [gpuStartPost]
            simp only [dispatchedIds_append, dequeuedIds_append,
              dispatchedIds_cons, dequeuedIds_cons, dispatchedIds_nil,
              dequeuedIds_nil, List.append_nil]
            exact ih.fifo3
          · dsimp only [gpuStartPost]
            rw [genScan_append, ih.gen, hg]
            simp
          · intro g' hg'
            dsimp only [gpuStartPost] at hg' ⊢
            refine List.mem_append_left _ (ih.guardQ g' ?_)
            rw [hq]
            exact List.mem_cons_of_mem _ hg'
          · intro t
            dsimp only [gpuStartPost]
            refine genGuarded_append t _ _ (ih.guardG t) ?_
            intro hmem
            simp at hmem
            subst hmem
            exact ih.guardQ g (by rw [hq]; exact List.mem_cons_self _ _)
          · intro hto
            dsimp only [gpuStartPost] at hto ⊢
            have hto' := hasTimeout_append_false hto
            have hph := ih.phase hto'
            constructor
            · intro hid
              obtain ⟨h1, _, _⟩ := hph.1 hid
              rw [hq] at h1
              exact absurd h1 (by simp)
            · intro tid' idx' hws
              obtain ⟨h1, h2⟩ := hph.2 tid' idx' hws
              refine ⟨dispTid_mono _ _ _ h1 (by simp), ?_⟩
              rcases h2 with ⟨req, ha, hb, hc⟩ | ⟨req, ha, hb, hc⟩ |
                ⟨ha, hb, f, hc, hd⟩
              · rw [hq] at ha
                simp only [List.cons.injEq] at ha
                obtain ⟨hgg, hrest⟩ := ha
                right; left
                refine ⟨req, hrest, ?_, hc⟩
                show GpuSt.generating g = _
                rw [hgg]
              · rw [hq] at ha
                exact absurd ha (by simp)
              · rw [hq] at ha
                exact absurd ha (by simp)
      | gpuNotReadyLoading g rest hg hq he =>
          have hne : s.engine ≠ .ready := by
            rw [he]
            intro hcon
            exact EngineState.noConfusion hcon
          have := (ih.engineIdle hne).1
          rw [hq] at this
          exact absurd this (by simp)
      | gpuNotReadyErrored g rest e hg hq he =>
          have hne : s.engine ≠ .ready := by
            rw [he]
            intro hcon
            exact EngineState.noConfusion hcon
          have := (ih.engineIdle hne).1
          rw [hq] at this
          exact absurd this (by simp)
      | gpuNotReadyOther g rest hg hq he =>
          have hne : s.engine ≠ .ready := by
            rw [he]
            intro hcon
            exact EngineState.noConfusion hcon
          have := (ih.engineIdle hne).1
          rw [hq] at this
          exact absurd this (by simp)
      | gpuFinishOk g filename hg =>
          refine ⟨?_, ?_, ?_, ?_, ?_, ?_, ?_, ?_⟩
          · intro hcon
            have := (ih.engineIdle hcon).2
            rw [hg] at this
            exact absurd this (by simp)
          · dsimp only [gpuFinishOkPost]
            simp only [dequeuedIds_append, enqueuedIds_append,
              dequeuedIds_cons, enqueuedIds_cons, dequeuedIds_nil,
              enqueuedIds_nil, List.append_nil]
            rcases resolveEvent_cases s.futures g.futIdx with hre | hre <;>
              rw [hre] <;>
              simp only [dequeuedIds_cons, enqueuedIds_cons,
                dequeuedIds_nil, enqueuedIds_nil, List.append_nil] <;>
              exact ih.fifo1
          · dsimp only [gpuFinishOkPost]
            rcases resolveEvent_cases s.futures g.futIdx with hre | hre <;>
              rw [hre] <;>
              simp only [genStartIds_append, genStartIds_cons,
                dispatchedIds_append, dispatchedIds_cons, genStartIds_nil,
                dispatchedIds_nil, List.append_nil] <;>
              exact ih.fifo2
          · dsimp only [gpuFinishOkPost]
            rcases resolveEvent_cases s.futures g.futIdx with hre | hre <;>
              rw [hre] <;>
              simp only [dispatchedIds_append, dequeuedIds_append,
                dispatchedIds_cons, dequeuedIds_cons, dispatchedIds_nil,
                dequeuedIds_nil, List.append_nil] <;>
              exact ih.fifo3
          · dsimp only [gpuFinishOkPost]
            rw [genScan_append, ih.gen, hg]
            simp [genScanStep_resolveEvent]
          · intro g' hg'
            exact List.mem_append_left _ (ih.guardQ g' hg')
          · intro t
            dsimp only [gpuFinishOkPost]
            refine genGuarded_append t _ _ (ih.guardG t) ?_
            intro hmem
            rcases List.mem_cons.mp hmem with h1 | hmem2
            · exact Event.noConfusion h1
            · have h2 := List.mem_singleton.mp hmem2
              exact absurd h2 (genStart_ne_resolveEvent t _ _)
          · intro hto
            dsimp only [gpuFinishOkPost] at hto ⊢
            have hto' := hasTimeout_append_false hto
            have hph := ih.phase hto'
            constructor
            · intro hid
              have := (hph.1 hid).2.1
              rw [hg] at this
              exact absurd this (by simp)
            · intro tid' idx' hws
              obtain ⟨h1, h2⟩ := hph.2 tid' idx' hws
              refine ⟨dispTid_mono _ _ _ h1 ?_, ?_⟩
              · rcases resolveEvent_cases s.futures g.futIdx with hre | hre <;>
                  rw [hre] <;> simp
              · rcases h2 with ⟨req, ha, hb, hc⟩ | ⟨req, ha, hb, hc⟩ |
                  ⟨ha, hb, f, hc, hd⟩
                · rw [hg] at hb
                  exact absurd hb (by simp)
                · have hgg : g = ⟨tid', req, idx'⟩ := by
                    rw [hg] at hb
                    injection hb
                  right; right
                  refine ⟨ha, rfl, .resolvedOk filename, ?_, by simp⟩
                  rw [hgg]
                  exact resolveFut_pending_getElem hc _
                · rw [hg] at hb
                  exact absurd hb (by simp)
      | gpuFinishErr g msg hg =>
          refine ⟨?_, ?_, ?_, ?_, ?_, ?_, ?_, ?_⟩
          · intro hcon
            have := (ih.engineIdle hcon).2
            rw [hg] at this
            exact absurd this (by simp)
          · dsimp only [gpuFinishErrPost]
            rcases resolveEvent_cases s.futures g.futIdx with hre | hre <;>
              rw [hre] <;>
              simp only [dequeuedIds_append, enqueuedIds_append,
                dequeuedIds_cons, enqueuedIds_cons, dequeuedIds_nil,
                enqueuedIds_nil, List.append_nil] <;>
              exact ih.fifo1
          · dsimp only [gpuFinishErrPost]
            rcases resolveEvent_cases s.futures g.futIdx with hre | hre <;>
              rw [hre] <;>
              simp only [genStartIds_append, genStartIds_cons,
                dispatchedIds_append, dispatchedIds_cons, genStartIds_nil,
                dispatchedIds_nil, List.append_nil] <;>
              exact ih.fifo2
          · dsimp only [gpuFinishErrPost]
            rcases resolveEvent_cases s.futures g.futIdx with hre | hre <;>
              rw [hre] <;>
              simp only [dispatchedIds_append, dequeuedIds_append,
                dispatchedIds_cons, dequeuedIds_cons, dispatchedIds_nil,
                dequeuedIds_nil, List.append_nil] <;>
              exact ih.fifo3
          · dsimp only [gpuFinishErrPost]
            rw [genScan_append, ih.gen, hg]
            simp [genScanStep_resolveEvent]
          · intro g' hg'
            exact List.mem_append_left _ (ih.guardQ g' hg')
          · intro t
            dsimp only [gpuFinishErrPost]
            refine genGuarded_append t _ _ (ih.guardG t) ?_
            intro hmem
            rcases List.mem_cons.mp hmem with h1 | hmem2
            · exact Event.noConfusion h1
            · have h2 := List.mem_singleton.mp hmem2
              exact absurd h2 (genStart_ne_resolveEvent t _ _)
          · intro hto
            dsimp only [gpuFinishErrPost] at hto ⊢
            have hto' := hasTimeout_append_false hto
            have hph := ih.phase hto'
            constructor
            · intro hid
              have := (hph.1 hid).2.1
              rw [hg] at this
              exact absurd this (by simp)
            · intro tid' idx' hws
              obtain ⟨h1, h2⟩ := hph.2 tid' idx' hws
              refine ⟨dispTid_mono _ _ _ h1 ?_, ?_⟩
              · rcases resolveEvent_cases s.futures g.futIdx with hre | hre <;>
                  rw [hre] <;> simp
              · rcases h2 with ⟨req, ha, hb, hc⟩ | ⟨req, ha, hb, hc⟩ |
                  ⟨ha, hb, f, hc, hd⟩
                · rw [hg] at hb
                  exact absurd hb (by simp)
                · have hgg : g = ⟨tid', req, idx'⟩ := by
                    rw [hg] at hb
                    injection hb
                  right; right
                  refine ⟨ha, rfl, .resolvedErr msg, ?_, by simp⟩
                  rw [hgg]
                  exact resolveFut_pending_getElem hc _
                · rw [hg] at hb
                  exact absurd hb (by simp)
      | workerOk tid idx filename hw hf =>
          refine ⟨?_, ?_, ?_, ?_, ?_, ?_, ?_, ?_⟩
          · exact fun h => ih.engineIdle h
          · dsimp only [workerOkPost]
            simp only [dequeuedIds_append, enqueuedIds_append,
              dequeuedIds_cons, enqueuedIds_cons, dequeuedIds_nil,
              enqueuedIds_nil, List.append_nil]
            exact ih.fifo1
          · dsimp only [workerOkPost]
            simp only [genStartIds_append, dispatchedIds_append,
              genStartIds_cons, dispatchedIds_cons, genStartIds_nil,
              dispatchedIds_nil, List.append_nil]
            exact ih.fifo2
          · dsimp only [workerOkPost]
            simp only [dispatchedIds_append, dequeuedIds_append,
              dispatchedIds_cons, dequeuedIds_cons, dispatchedIds_nil,
              dequeuedIds_nil, List.append_nil]
            exact ih.fifo3
          · dsimp only [workerOkPost]
            rw [genScan_append, ih.gen]
            simp
          · intro g hg
            exact List.mem_append_left _ (ih.guardQ g hg)
          · intro t
            dsimp only [workerOkPost]
            refine genGuarded_append t _ _ (ih.guardG t) ?_
            intro hmem
            simp at hmem
          · intro hto
            dsimp only [workerOkPost] at hto ⊢
            have hto' := hasTimeout_append_false hto
            obtain ⟨h1, h2⟩ := (ih.phase hto').2 tid idx hw
            constructor
            · intro _
              rcases h2 with ⟨req, ha, hb, hc⟩ | ⟨req, ha, hb, hc⟩ |
                ⟨ha, hb, f, hc, hd⟩
              · rw [hf] at hc
                exact absurd hc (by simp)
              · rw [hf] at hc
                exact absurd hc (by simp)
              · refine ⟨ha, hb, ?_⟩
                intro t ht
                simp only [dispatchedIds_append, dispatchedIds_cons,
                  dispatchedIds_nil, List.append_nil] at ht
                rcases h1 t ht with h' | h'
                · subst h'
                  exact Or.inl (by simp)
                · exact terminal_mono _ _ _ h'
            · intro tid' idx' hws
              exact absurd hws (by simp)
      | workerFail tid idx msg hw hf =>
          refine ⟨?_, ?_, ?_, ?_, ?_, ?_, ?_, ?_⟩
          · exact fun h => ih.engineIdle h
          · dsimp only [workerFailPost]
            simp only [dequeuedIds_append, enqueuedIds_append,
              dequeuedIds_cons, enqueuedIds_cons, dequeuedIds_nil,
              enqueuedIds_nil, List.append_nil]
            exact ih.fifo1
          · dsimp only [workerFailPost]
            simp only [genStartIds_append, dispatchedIds_append,
              genStartIds_cons, dispatchedIds_cons, genStartIds_nil,
              dispatchedIds_nil, List.append_nil]
            exact ih.fifo2
          · dsimp only [workerFailPost]
            simp only [dispatchedIds_append, dequeuedIds_append,
              dispatchedIds_cons, dequeuedIds_cons, dispatchedIds_nil,
              dequeuedIds_nil, List.append_nil]
            exact ih.fifo3
          · dsimp only [workerFailPost]
            rw [genScan_append, ih.gen]
            simp
          · intro g hg
            exact List.mem_append_left _ (ih.guardQ g hg)
          · intro t
            dsimp only [workerFailPost]
            refine genGuarded_append t _ _ (ih.guardG t) ?_
            intro hmem
            simp at hmem
          · intro hto
            dsimp only [workerFailPost] at hto ⊢
            have hto' := hasTimeout_append_false hto
            obtain ⟨h1, h2⟩ := (ih.phase hto').2 tid idx hw
            constructor
            · intro _
              rcases h2 with ⟨req, ha, hb, hc⟩ | ⟨req, ha, hb, hc⟩ |
                ⟨ha, hb, f, hc, hd⟩
              · rw [hf] at hc
                exact absurd hc (by simp)
              · rw [hf] at hc
                exact absurd hc (by simp)
              · refine ⟨ha, hb, ?_⟩
                intro t ht
                simp only [dispatchedIds_append, dispatchedIds_cons,
                  dispatchedIds_nil, List.append_nil] at ht
                rcases h1 t ht with h' | h'
                · subst h'
                  exact Or.inr ⟨msg, by simp⟩
                · exact terminal_mono _ _ _ h'
            · intro tid' idx' hws
              exact absurd hws (by simp)
      | workerTimeout tid idx hw hf =>
          refine ⟨?_, ?_, ?_, ?_, ?_, ?_, ?_, ?_⟩
          · exact fun h => ih.engineIdle h
          · dsimp only [workerTimeoutPost]
            simp only [dequeuedIds_append, enqueuedIds_append,
              dequeuedIds_cons, enqueuedIds_cons, dequeuedIds_nil,
              enqueuedIds_nil, List.append_nil]
            exact ih.fifo1
          · dsimp only [workerTimeoutPost]
            simp only [genStartIds_append, dispatchedIds_append,
              genStartIds_cons, dispatchedIds_cons, genStartIds_nil,
              dispatchedIds_nil, List.append_nil]
            exact ih.fifo2
          · dsimp only [workerTimeoutPost]
            simp only [dispatchedIds_append, dequeuedIds_append,
              dispatchedIds_cons, dequeuedIds_cons, dispatchedIds_nil,
              dequeuedIds_nil, List.append_nil]
            exact ih.fifo3
          · dsimp only [workerTimeoutPost]
            rw [genScan_append, ih.gen]
            simp
          · intro g hg
            exact List.mem_append_left _ (ih.guardQ g hg)
          · intro t
            dsimp only [workerTimeoutPost]
            refine genGuarded_append t _ _ (ih.guardG t) ?_
            intro hmem
            simp at hmem
          · intro hto
            dsimp only [workerTimeoutPost] at hto
            simp at hto
      | engineStartLoading he =>
          have hne : s.engine ≠ .ready := by
            rw [he]
            intro hcon
            exact EngineState.noConfusion hcon
          have hei := ih.engineIdle hne
          exact ⟨fun _ => hei, ih.fifo1, ih.fifo2, ih.fifo3, ih.gen,
            ih.guardQ, ih.guardG, ih.phase⟩
      | engineLoaded he =>
          exact ⟨fun hcon => absurd rfl hcon, ih.fifo1, ih.fifo2, ih.fifo3,
            ih.gen, ih.guardQ, ih.guardG, ih.phase⟩
      | engineFailed e he =>
          have hne : s.engine ≠ .ready := by
            rw [he]
            intro hcon
            exact EngineState.noConfusion hcon
          have hei := ih.engineIdle hne
          exact ⟨fun _ => hei, ih.fifo1, ih.fifo2, ih.fifo3, ih.gen,
            ih.guardQ, ih.guardG, ih.phase⟩
      | engineReload e he =>
          have hne : s.engine ≠ .ready := by
            rw [he]
            intro hcon
            exact EngineState.noConfusion hcon
          have hei := ih.engineIdle hne
          exact ⟨fun _ => hei, ih.fifo1, ih.fifo2, ih.fifo3, ih.gen,
            ih.guardQ, ih.guardG, ih.phase⟩
      | tick =>
          exact ⟨ih.engineIdle, ih.fifo1, ih.fifo2, ih.fifo3, ih.gen,
            ih.guardQ, ih.guardG, ih.phase⟩

/-- Reading back the record just updated: the first match of
`update_task` and of `get_task` coincide (the merge does not change the
id when the update does not write `"id"`). -/
theorem get_task_update_task (db : DB) (tid : TaskId) (u : Rec)
    (hlast : lastVal u "id" = none) :
    get_task (update_task db tid u) tid
      = (get_task db tid).map (fun r => dictUpdate r u) := by
  induction db with
  | nil => rfl
  | cons r rest ih =>
      by_cases hr : recId r = some (.vs tid)
      · have hr' : recId (dictUpdate r u) = some (.vs tid) := by
          rw [recId_dictUpdate r u hlast]; exact hr
        simp only [update_task, if_pos hr, get_task, List.find?_cons]
        rw [decide_eq_true hr', decide_eq_true hr]
        rfl
      · have hr' : recId (dictUpdate r u) ≠ some (.vs tid) := by
          rw [recId_dictUpdate r u hlast]; exact hr
        simp only [update_task, if_neg hr, get_task, List.find?_cons]
        rw [decide_eq_false hr]
        exact ih

/-! ### Concrete executions -/

/-- Engine: `load_model` has been started in the background thread. -/
def sLoading : SysState := engineToPost sysInit .loading

/-- Engine: loading finished, `is_ready()` is true from here on. -/
def sReady : SysState := engineToPost sLoading .ready

theorem reach_sReady : Reachable sReady :=
  Reachable.step (Reachable.step Reachable.init
    (Step.engineStartLoading sysInit rfl))
    (Step.engineLoaded sLoading rfl)

/-! The end-to-end happy path (C8): submit `a cat` with the declared
defaults, dispatch it, generate `"img123"`, complete. -/

def c8_req : GenerateRequest := { prompt := "a cat" }

def c8_item : QueueItem := ⟨"cat-task", c8_req⟩

def c8_gpu : GpuTask := ⟨"cat-task", c8_req, 0⟩

def c8_s3 : SysState := submitPost sReady "cat-task" c8_req

def c8_s4 : SysState := dequeueReadyPost c8_s3 c8_item []

def c8_s5 : SysState := gpuStartPost c8_s4 c8_gpu []

def c8_s6 : SysState := gpuFinishOkPost c8_s5 c8_gpu "img123"

def c8_s7 : SysState := workerOkPost c8_s6 "cat-task" "img123"

theorem reach_c8_s3 : Reachable c8_s3 :=
  Reachable.step reach_sReady (Step.submit sReady "cat-task" c8_req rfl)

theorem reach_c8_s4 : Reachable c8_s4 :=
  Reachable.step reach_c8_s3 (Step.dequeueReady c8_s3 c8_item [] rfl rfl rfl)

theorem reach_c8_s5 : Reachable c8_s5 :=
  Reachable.step reach_c8_s4 (Step.gpuStart c8_s4 c8_gpu [] rfl rfl rfl)

theorem reach_c8_s6 : Reachable c8_s6 :=
  Reachable.step reach_c8_s5 (Step.gpuFinishOk c8_s5 c8_gpu "img123" rfl)

theorem reach_c8_s7 : Reachable c8_s7 :=
  Reachable.step reach_c8_s6
    (Step.workerOk c8_s6 "cat-task" 0 "img123" rfl (by decide))

/-! The timeout interleaving (C1 counterexample / C4): task A's await
times out while A's `generate` is still running; the worker then takes
the next head item B; the GPU thread finishes A much later. -/

def c1_reqA : GenerateRequest := { prompt := "first" }

def c1_reqB : GenerateRequest := { prompt := "second" }

def c1_itA : QueueItem := ⟨"A", c1_reqA⟩

def c1_itB : QueueItem := ⟨"B", c1_reqB⟩

def c1_gA : GpuTask := ⟨"A", c1_reqA, 0⟩

def c1_s3 : SysState := submitPost sReady "A" c1_reqA

def c1_s4 : SysState := submitPost c1_s3 "B" c1_reqB

def c1_s5 : SysState := dequeueReadyPost c1_s4 c1_itA [c1_itB]

def c1_s6 : SysState := gpuStartPost c1_s5 c1_gA []

def c1_s7 : SysState := workerTimeoutPost c1_s6 "A" 0

def c1_s8 : SysState := dequeueReadyPost c1_s7 c1_itB []

def c4_s8 : SysState := gpuFinishOkPost c1_s7 c1_gA "late-img"

theorem reach_c1_s7 : Reachable c1_s7 :=
  Reachable.step (Reachable.step (Reachable.step (Reachable.step
    (Reachable.step reach_sReady
      (Step.submit sReady "A" c1_reqA rfl))
    (Step.submit c1_s3 "B" c1_reqB (by decide)))
    (Step.dequeueReady c1_s4 c1_itA [c1_itB] rfl rfl rfl))
    (Step.gpuStart c1_s5 c1_gA [] rfl rfl rfl))
    (Step.workerTimeout c1_s6 "A" 0 rfl (by decide))

theorem reach_c1_s8 : Reachable c1_s8 :=
  Reachable.step reach_c1_s7
    (Step.dequeueReady c1_s7 c1_itB [] rfl rfl rfl)

theorem reach_c4_s8 : Reachable c4_s8 :=
  Reachable.step reach_c1_s7
    (Step.gpuFinishOk c1_s7 c1_gA "late-img" rfl)

/-! ## Claim theorems on the execution model -/

/-- C1 (amended): in every reachable state (i) the dequeued ids
followed by the still-queued ids are exactly the enqueued ids in order
— strict FIFO; (ii) the `generate`-start order extends to the dispatch
order, which is a sub-order of the dequeue order; (iii) the
`genStart`/`genEnd` events form a well-nested alternation whose open
invocation is the GPU thread's current task — the Resource Port never
runs two invocations at once; and (iv) PROVIDED NO AWAIT-TIMEOUT HAS
FIRED, whenever the worker is back in its loop (able to take the next
head item) the previous dispatch has fully finished: GPU queue empty,
GPU thread idle, and every dispatched task persisted terminal.  (The
unamended claim asserts (iv) unconditionally; after a timeout the next
head item is taken while the abandoned `generate` is still in flight —
see the counterexample.) -/
theorem dispatcher_serialization_C1 (s : SysState) (h : Reachable s) :
    dequeuedIds s.trace ++ s.asyncQ.map (fun it => it.task_id)
      = enqueuedIds s.trace
    ∧ genStartIds s.trace ++ s.gpuQ.map (fun g => g.task_id)
      = dispatchedIds s.trace
    ∧ List.Sublist (dispatchedIds s.trace) (dequeuedIds s.trace)
    ∧ genScan s.trace = some (gpuActive s.gpuSt)
    ∧ (hasTimeout s.trace = false → s.workerSt = .idle →
        s.gpuQ = [] ∧ s.gpuSt = .idle ∧
        ∀ t ∈ dispatchedIds s.trace, terminal t s.trace) := by
  have hinv := inv_reachable h
  exact ⟨hinv.fifo1, hinv.fifo2, hinv.fifo3, hinv.gen,
    fun hto hid => (hinv.phase hto).1 hid⟩

theorem dispatcher_serialization_C1_witness :
    dequeuedIds c8_s7.trace ++ c8_s7.asyncQ.map (fun it => it.task_id)
      = enqueuedIds c8_s7.trace
    ∧ genStartIds c8_s7.trace ++ c8_s7.gpuQ.map (fun g => g.task_id)
      = dispatchedIds c8_s7.trace
    ∧ List.Sublist (dispatchedIds c8_s7.trace) (dequeuedIds c8_s7.trace)
    ∧ genScan c8_s7.trace = some (gpuActive c8_s7.gpuSt)
    ∧ (hasTimeout c8_s7.trace = false → c8_s7.workerSt = .idle →
        c8_s7.gpuQ = [] ∧ c8_s7.gpuSt = .idle ∧
        ∀ t ∈ dispatchedIds c8_s7.trace, terminal t c8_s7.trace) :=
  dispatcher_serialization_C1 c8_s7 reach_c8_s7

/-- C1 counterexample: after task A's await times out, the worker takes
the next head item B while A's `generate` invocation is still in
flight, so "steps 2-5 complete fully for one task before the next head
item is taken" is false as stated. -/
theorem dispatcher_serialization_counterexample_C1 :
    Reachable c1_s8
    ∧ c1_s8.gpuSt = .generating c1_gA
    ∧ Event.dequeue "B" ∈ c1_s8.trace
    ∧ Event.genEnd "A" ∉ c1_s8.trace := by
  refine ⟨reach_c1_s8, rfl, ?_, ?_⟩ <;> decide

/-- C4 (code bug): when the 300 s timeout fires for task A (i) the
`generate` invocation keeps running (the GPU thread's state is
untouched); (ii) `process_task` persists `failed` with the timeout
message and a failure timestamp — but the re-raised `TimeoutError` is
caught by the outer generic handler which persists `failed` again with
`str(e) = ""`, so the record's FINAL `error` is the empty string, not a
timeout error; (iii) when `generate` eventually returns, the resolution
attempt on the already-cancelled single-assignment future is a no-op
(the future stays `cancelled`, the trace records `resolveNoop`). -/
theorem timeout_semantics_C4 :
    Reachable c4_s8
    ∧ c1_s7.gpuSt = .generating c1_gA
    ∧ Event.persistFailed "A" (timeoutMsg "A") ∈ c1_s7.trace
    ∧ (get_task c1_s7.db "A").map (fun r => recLookup r "status")
        = some (some (.vs "failed"))
    ∧ (get_task c1_s7.db "A").map (fun r => recLookup r "failed_at")
        = some (some (.vn 0))
    ∧ (get_task c1_s7.db "A").map (fun r => recLookup r "error")
        = some (some (.vs ""))
    ∧ Val.vs "" ≠ Val.vs (timeoutMsg "A")
    ∧ c4_s8.futures = [.cancelled]
    ∧ c4_s8.trace = c1_s7.trace ++ [.genEnd "A", .resolveNoop 0]
    ∧ (get_task c4_s8.db "A").map (fun r => recLookup r "error")
        = some (some (.vs "")) := by
  refine ⟨reach_c4_s8, rfl, ?_, ?_, ?_, ?_, ?_, ?_, ?_, ?_⟩ <;> decide

/-- C6: for every reachable state, wherever a `genStart t` occurs in
the trace, the persisted-`processing` write for `t` occurs strictly
before it: the Task Record is persisted as `processing` before the
request is handed to `generate`, and `generate` is never invoked for a
task without that prior write. -/
theorem processing_before_generate_C6 (s : SysState) (h : Reachable s)
    (t : TaskId) (u v : List Event)
    (hsplit : s.trace = u ++ Event.genStart t :: v) :
    Event.persistProcessing t ∈ u :=
  (inv_reachable h).guardG t u v hsplit

theorem processing_before_generate_C6_witness :
    Event.persistProcessing "cat-task" ∈
      [Event.enqueue "cat-task", Event.dequeue "cat-task",
       Event.persistProcessing "cat-task"] :=
  processing_before_generate_C6 c8_s5 reach_c8_s5 "cat-task"
    [Event.enqueue "cat-task", Event.dequeue "cat-task",
     Event.persistProcessing "cat-task"] [] (by decide)

/-- C7: when the worker takes/inspects the head item with the engine
not ready: (loading) the dispatcher performs the dequeue-and-fail step
— the task is persisted `failed` with the not-ready error and is
neither put back on the worker queue nor handed to the GPU queue;
(load error) likewise with the load-failure error; (not yet started
loading) the dispatcher only defers — the `sleep(0.5); continue` step
leaves queue and store untouched, and NO step available in that state
removes the head item from the queue. -/
theorem not_ready_dispatch_C7 (s : SysState) (it : QueueItem)
    (rest : List QueueItem)
    (hw : s.workerSt = .idle) (hq : s.asyncQ = it :: rest) :
    (s.engine = .loading →
      Step s (dequeueFailPost s it rest loadingFailMsg)
      ∧ (dequeueFailPost s it rest loadingFailMsg).asyncQ = rest
      ∧ (dequeueFailPost s it rest loadingFailMsg).gpuQ = s.gpuQ
      ∧ get_task (dequeueFailPost s it rest loadingFailMsg).db it.task_id
          = (get_task s.db it.task_id).map
              (fun r => dictUpdate r (failedUpd loadingFailMsg s.now))
      ∧ (∀ r : Rec,
          recLookup (dictUpdate r (failedUpd loadingFailMsg s.now)) "status"
            = some (.vs "failed")
          ∧ recLookup (dictUpdate r (failedUpd loadingFailMsg s.now)) "error"
            = some (.vs loadingFailMsg)))
    ∧ (∀ e, s.engine = .errored e →
        Step s (dequeueFailPost s it rest (loadErrFailMsg e))
        ∧ (dequeueFailPost s it rest (loadErrFailMsg e)).asyncQ = rest
        ∧ (dequeueFailPost s it rest (loadErrFailMsg e)).gpuQ = s.gpuQ
        ∧ get_task (dequeueFailPost s it rest (loadErrFailMsg e)).db it.task_id
            = (get_task s.db it.task_id).map
                (fun r => dictUpdate r (failedUpd (loadErrFailMsg e) s.now))
        ∧ (∀ r : Rec,
            recLookup (dictUpdate r (failedUpd (loadErrFailMsg e) s.now)) "status"
              = some (.vs "failed")
            ∧ recLookup (dictUpdate r (failedUpd (loadErrFailMsg e) s.now)) "error"
              = some (.vs (loadErrFailMsg e))))
    ∧ (s.engine = .notStarted →
        Step s (deferPost s)
        ∧ (deferPost s).asyncQ = s.asyncQ
        ∧ (deferPost s).db = s.db
        ∧ ∀ s', Step s s' → ∃ tail, s'.asyncQ = it :: tail) := by
  refine ⟨?_, ?_, ?_⟩
  · intro he
    refine ⟨Step.dequeueLoading s it rest hw hq he, rfl, rfl, ?_, ?_⟩
    · exact get_task_update_task s.db it.task_id _ rfl
    · intro r
      constructor
      · exact recLookup_dictUpdate_of_last r _ "status" _ rfl
      · exact recLookup_dictUpdate_of_last r _ "error" _ rfl
  · intro e he
    refine ⟨Step.dequeueErrored s it rest e hw hq he, rfl, rfl, ?_, ?_⟩
    · exact get_task_update_task s.db it.task_id _ rfl
    · intro r
      constructor
      · exact recLookup_dictUpdate_of_last r _ "status" _ rfl
      · exact recLookup_dictUpdate_of_last r _ "error" _ rfl
  · intro he
    refine ⟨Step.deferNotStarted s hw he, rfl, rfl, ?_⟩
    intro s' hstep
    cases hstep with
    | submit tid req hfresh =>
        exact ⟨rest ++ [⟨tid, req⟩], by
          show s.asyncQ ++ _ = _
          rw [hq]
          rfl⟩
    | dequeueReady it' rest' hw' hq' he' =>
        rw [he] at he'
        exact EngineState.noConfusion he'
    | dequeueLoading it' rest' hw' hq' he' =>
        rw [he] at he'
        exact EngineState.noConfusion he'
    | dequeueErrored it' rest' e' hw' hq' he' =>
        rw [he] at he'
        exact EngineState.noConfusion he'
    | deferNotStarted hw' he' => exact ⟨rest, hq⟩
    | gpuStart g rest' hg hq' he' =>
        rw [he] at he'
        exact EngineState.noConfusion he'
    | gpuNotReadyLoading g rest' hg hq' he' =>
        rw [he] at he'
        exact EngineState.noConfusion he'
    | gpuNotReadyErrored g rest' e' hg hq' he' =>
        rw [he] at he'
        exact EngineState.noConfusion he'
    | gpuNotReadyOther g rest' hg hq' he' => exact ⟨rest, hq⟩
    | gpuFinishOk g filename hg => exact ⟨rest, hq⟩
    | gpuFinishErr g msg hg => exact ⟨rest, hq⟩
    | workerOk tid idx filename hw' hf =>
        rw [hw] at hw'
        exact WorkerSt.noConfusion hw'
    | workerFail tid idx msg hw' hf =>
        rw [hw] at hw'
        exact WorkerSt.noConfusion hw'
    | workerTimeout tid idx hw' hf =>
        rw [hw] at hw'
        exact WorkerSt.noConfusion hw'
    | engineStartLoading he' => exact ⟨rest, hq⟩
    | engineLoaded he' => exact ⟨rest, hq⟩
    | engineFailed e' he' => exact ⟨rest, hq⟩
    | engineReload e' he' => exact ⟨rest, hq⟩
    | tick => exact ⟨rest, hq⟩

def c7_req : GenerateRequest := { prompt := "p7" }

def c7_rec : Rec := create_task_record "t7" 0 c7_req

def c7_item : QueueItem := ⟨"t7", c7_req⟩

/-- A worker state whose engine is still loading, with one queued task. -/
def c7_state : SysState :=
  { db := [c7_rec], asyncQ := [c7_item], gpuQ := [], futures := []
  , workerSt := .idle, gpuSt := .idle, engine := .loading
  , now := 5, trace := [.enqueue "t7"] }

theorem not_ready_dispatch_C7_witness :
    Step c7_state (dequeueFailPost c7_state c7_item [] loadingFailMsg)
    ∧ (dequeueFailPost c7_state c7_item [] loadingFailMsg).asyncQ = []
    ∧ get_task (dequeueFailPost c7_state c7_item [] loadingFailMsg).db "t7"
        = some (dictUpdate c7_rec (failedUpd loadingFailMsg 5)) := by
  have h := (not_ready_dispatch_C7 c7_state c7_item [] rfl rfl).1 rfl
  refine ⟨h.1, h.2.1, ?_⟩
  have h4 := h.2.2.2.1
  rw [show (c7_item.task_id : TaskId) = "t7" from rfl] at h4
  rw [h4]
  decide

/-- C8 counterexample: in the end-to-end scenario the completed
record's image field is `"images/img123"`, NOT the bare artifact
reference `"img123"` returned by `generate` — `process_task` stores
`f"images/{filename}"`. -/
theorem image_ref_counterexample_C8 :
    Reachable c8_s7
    ∧ (get_task c8_s7.db "cat-task").map (fun r => recLookup r "imageUrl")
        = some (some (.vs "images/img123"))
    ∧ Val.vs "images/img123" ≠ Val.vs "img123" := by
  refine ⟨reach_c8_s7, ?_, ?_⟩ <;> decide

/-- C8 (amended): end-to-end — submitting `{prompt: "a cat"}` with the
declared defaults `steps=20, width=512, height=512, cfg_scale=7.5`
creates the record with status `submitted`; the dispatcher transitions
it to `processing`; and when `generate` returns artifact `"img123"`
the record becomes `completed` with its image field equal to
`"images/" ++ "img123"` (the artifact reference prefixed with the
image route) and a completion timestamp. -/
theorem end_to_end_scenario_C8 :
    Reachable c8_s7
    ∧ c8_req = { prompt := "a cat", negative_prompt := none, steps := 20,
                 width := 512, height := 512, cfg_scale := 75 }
    ∧ (get_task c8_s3.db "cat-task").map (fun r => recLookup r "status")
        = some (some (.vs "submitted"))
    ∧ (get_task c8_s4.db "cat-task").map (fun r => recLookup r "status")
        = some (some (.vs "processing"))
    ∧ (get_task c8_s7.db "cat-task").map (fun r => recLookup r "status")
        = some (some (.vs "completed"))
    ∧ (get_task c8_s7.db "cat-task").map (fun r => recLookup r "imageUrl")
        = some (some (.vs ("images/" ++ "img123")))
    ∧ (get_task c8_s7.db "cat-task").map (fun r => recLookup r "completed_at")
        = some (some (.vn 0)) := by
  refine ⟨reach_c8_s7, rfl, ?_, ?_, ?_, ?_, ?_⟩ <;> decide

end NextGen
